import Mathlib

/-! # User management API: identity service, user store and authorization gate

A shallow embedding of the Go sources

* `internal/model/user.go`
* `internal/repository/user_repository.go`
* `internal/service/user_service.go`
* `internal/middleware/auth.go`
* `internal/handler/respond.go`

The repository's own functions are translated one to one.  The libraries they
call (SQLite through `database/sql`, `time`, `google/uuid`, `bcrypt`,
`golang-jwt/jwt/v5`, `gin`) are represented by small executable models, each
documented where it is defined.
-/

set_option linter.dupNamespace false

namespace UserMgmt

/-! ## Strings -/

/-- Go `strings.Contains` on character lists: `sub` occurs in the text as a
contiguous run. -/
def containsChars (sub : List Char) : List Char → Bool
  | [] => sub.isEmpty
  | c :: cs => sub.isPrefixOf (c :: cs) || containsChars sub cs

/-- Go `strings.Contains(s, substr)`. -/
def stringsContains (s substr : String) : Bool :=
  containsChars substr.data s.data

/-! ## Errors -/

/-- Go `error` values that occur in the program.  The three sentinels are the
package-level `errors.New` values of `repository` and `service`; `ErrNoRows` is
`sql.ErrNoRows`; `external msg` is an error produced inside a library (the SQL
driver, bcrypt) whose text is `msg`; `wrap ctx e` is
`fmt.Errorf(ctx + ": %w", e)`. -/
inductive Error where
  | ErrNotFound
  | ErrEmailTaken
  | ErrInvalidCredentials
  | ErrNoRows
  | external (msg : String)
  | wrap (ctx : String) (cause : Error)
deriving DecidableEq

namespace Error

/-- The `Error()` text of an error value. -/
def Error : UserMgmt.Error → String
  | ErrNotFound => "user not found"
  | ErrEmailTaken => "email already in use"
  | ErrInvalidCredentials => "invalid credentials"
  | ErrNoRows => "sql: no rows in result set"
  | external msg => msg
  | wrap ctx cause => ctx ++ ": " ++ cause.Error

/-- Go `errors.Is(err, target)` for a sentinel target: walks the `%w` chain. -/
def Is (err target : UserMgmt.Error) : Bool :=
  if err = target then true
  else match err with
    | wrap _ cause => cause.Is target
    | _ => false

end Error

/-! ## Time -/

/-- A `time.Time` in UTC: nanoseconds since the Unix epoch.  Every time value
of the program comes from `time.Now().UTC()`. -/
abbrev Time := Int

/-- A `time.Duration`: nanoseconds. -/
abbrev Duration := Int

/-- Nanoseconds per second. -/
def nanosPerSecond : Int := 1000000000

/-- Go `t.Unix()`: whole seconds since the epoch (rounded down). -/
def Time.Unix (t : Time) : Int := t / nanosPerSecond

/-- A text in the layout `time.RFC3339` (`2006-01-02T15:04:05Z07:00`) for a UTC
time.  The layout has no field for fractions of a second, so such a text names
one whole second; it is represented by the Unix number of that second.  For
years 0000 to 9999 the lexicographic order of these texts is the order of the
seconds they name. -/
structure RFC3339 where
  sec : Int
deriving DecidableEq

/-- Go `t.UTC().Format(time.RFC3339)`. -/
def Time.Format (t : Time) : RFC3339 := ⟨t / nanosPerSecond⟩

/-- Go `time.Parse(time.RFC3339, text)`. -/
def timeParse (text : RFC3339) : Time := text.sec * nanosPerSecond

/-! ## UUIDs -/

/-- A `uuid.UUID`: sixteen bytes, read as one big-endian number. -/
abbrev UUID := Fin (2 ^ 128)

/-- The zero value `uuid.Nil`. -/
def UUID.Nil : UUID := ⟨0, by norm_num⟩

/-- Lower-case hexadecimal digit of a number below sixteen. -/
def hexDigit (d : Nat) : Char :=
  if d < 10 then Char.ofNat (48 + d) else Char.ofNat (87 + d)

/-- Value of a hexadecimal digit, either case. -/
def hexValue (c : Char) : Option Nat :=
  let n := c.toNat
  if 48 ≤ n ∧ n ≤ 57 then some (n - 48)
  else if 97 ≤ n ∧ n ≤ 102 then some (n - 87)
  else if 65 ≤ n ∧ n ≤ 70 then some (n - 55)
  else none

/-- The `w` low hexadecimal digits of `n`, most significant first. -/
def toHex : Nat → Nat → List Char
  | 0, _ => []
  | w + 1, n => toHex w (n / 16) ++ [hexDigit (n % 16)]

/-- Reads exactly `w` hexadecimal digits from the front of the text, continuing
the number `acc`; returns the number and the rest of the text. -/
def readHex : Nat → Nat → List Char → Option (Nat × List Char)
  | 0, acc, cs => some (acc, cs)
  | _ + 1, _, [] => none
  | w + 1, acc, c :: cs =>
    match hexValue c with
    | some v => readHex w (acc * 16 + v) cs
    | none => none

/-- Reads one hyphen from the front of the text. -/
def readHyphen : List Char → Option (List Char)
  | c :: cs => if c = '-' then some cs else none
  | [] => none

/-- Go `id.String()`: the canonical text
`xxxxxxxx-xxxx-xxxx-xxxx-xxxxxxxxxxxx`. -/
def UUID.String (u : UUID) : String :=
  String.mk (toHex 8 (u.val / 2 ^ 96) ++ ('-' :: (toHex 4 (u.val / 2 ^ 80) ++ ('-' ::
    (toHex 4 (u.val / 2 ^ 64) ++ ('-' :: (toHex 4 (u.val / 2 ^ 48) ++ ('-' ::
    toHex 12 u.val))))))))

/-- Go `uuid.Parse` on the canonical 36-character form (hexadecimal digits of
either case, hyphens after the 8th, 12th, 16th and 20th digit).  The library
also reads the `urn:uuid:` form, the braced form and the bare 32-digit form;
none of them is ever written by this program and they are not modelled: every
other text is rejected. -/
def uuidParse (s : String) : Option UUID :=
  match readHex 8 0 s.data with
  | none => none
  | some (a, r1) =>
  match readHyphen r1 with
  | none => none
  | some r2 =>
  match readHex 4 0 r2 with
  | none => none
  | some (b, r3) =>
  match readHyphen r3 with
  | none => none
  | some r4 =>
  match readHex 4 0 r4 with
  | none => none
  | some (c, r5) =>
  match readHyphen r5 with
  | none => none
  | some r6 =>
  match readHex 4 0 r6 with
  | none => none
  | some (d, r7) =>
  match readHyphen r7 with
  | none => none
  | some r8 =>
  match readHex 12 0 r8 with
  | none => none
  | some (e, r9) =>
    if r9 = [] then
      some (Fin.ofNat' (2 ^ 128) (a * 2 ^ 96 + b * 2 ^ 80 + c * 2 ^ 64 + d * 2 ^ 48 + e))
    else none

/-! ## bcrypt -/

/-- The UTF-8 bytes of a character. -/
def utf8Bytes (c : Char) : List Nat :=
  let n := c.toNat
  if n < 128 then [n]
  else if n < 2048 then [192 + n / 64, 128 + n % 64]
  else if n < 65536 then [224 + n / 4096, 128 + n / 64 % 64, 128 + n % 64]
  else [240 + n / 262144, 128 + n / 4096 % 64, 128 + n / 64 % 64, 128 + n % 64]

/-- Go `[]byte(s)`: the bytes of a string. -/
def stringBytes : List Char → List Nat
  | [] => []
  | c :: cs => utf8Bytes c ++ stringBytes cs

/-- The key material bcrypt takes from a password: the library appends a zero
byte to the password and its Blowfish key schedule reads 72 bytes of the result,
starting over at its end.  Nothing else of the password enters the digest. -/
def bcryptKey (password : String) : List Nat :=
  let ckey := stringBytes password.data ++ [0]
  (List.range 72).map (fun i => ckey.getD (i % ckey.length) 0)

/-- A text in password-hash position.  A bcrypt hash `$2a$10$<salt><digest>` is
represented by the salt and the key material its digest was computed from (the
digest itself is taken to be free of collisions); `raw` is any text that is not
a bcrypt hash. -/
inductive HashText where
  | raw (s : String)
  | bcrypt (salt : String) (key : List Nat)
deriving DecidableEq

/-- Go `bcrypt.GenerateFromPassword([]byte(password), bcrypt.DefaultCost)`.
`salt` is what the library obtained for the salt: the random salt, or the text
of the error with which the library gave up. -/
def bcryptGenerateFromPassword (salt : Except String String) (password : String) :
    Except Error HashText :=
  match salt with
  | .error msg => .error (.external msg)
  | .ok s => .ok (.bcrypt s (bcryptKey password))

/-- Go `bcrypt.CompareHashAndPassword(hash, password)`: `true` stands for a nil
error.  The library computes the digest of the password under the salt of the
hash and compares; it does not look at the length of the password. -/
def bcryptCompareHashAndPassword (hash : HashText) (password : String) : Bool :=
  match hash with
  | .raw _ => false
  | .bcrypt _ k => k = bcryptKey password

/-! ## Data model (`internal/model/user.go`) -/

/-- The struct `model.User`. -/
structure User where
  ID : UUID
  Name : String
  Email : String
  PasswordHash : HashText
  CreatedAt : Time
  UpdatedAt : Time
deriving DecidableEq

/-- The struct `model.RegisterRequest`. -/
structure RegisterRequest where
  Name : String
  Email : String
  Password : String
deriving DecidableEq

/-- The struct `model.SignInRequest`. -/
structure SignInRequest where
  Email : String
  Password : String
deriving DecidableEq

/-- The struct `model.UpdateUserRequest`. -/
structure UpdateUserRequest where
  Name : String
  Email : String
deriving DecidableEq

/-- The struct `model.ListUsersQuery`. -/
structure ListUsersQuery where
  Email : String
  Limit : Int
  Offset : Int
deriving DecidableEq

/-! ## The table `users` in SQLite

Schema (`runMigrations` in `cmd/main.go`, repeated in the test set-up):
`id TEXT PRIMARY KEY, name TEXT NOT NULL, email TEXT NOT NULL UNIQUE,
password_hash TEXT NOT NULL, created_at TEXT NOT NULL, updated_at TEXT NOT NULL`.
-/

/-- One row of `users`. -/
structure Row where
  id : String
  name : String
  email : String
  password_hash : HashText
  created_at : RFC3339
  updated_at : RFC3339
deriving DecidableEq

/-- The contents of `users`, in rowid (insertion) order. -/
abbrev DB := List Row

/-- The schema constraints `PRIMARY KEY (id)` and `UNIQUE (email)`. -/
def DB.Valid (db : DB) : Prop :=
  (db.map Row.id).Nodup ∧ (db.map Row.email).Nodup

instance (db : DB) : Decidable db.Valid := by
  unfold DB.Valid; infer_instance

/-- The statement `INSERT INTO users (...) VALUES (...)`.  `fault` is a failure
of the connection or of the statement as a whole (cancelled context, closed or
locked database, I/O error), given by its text; then nothing is written.
Otherwise the unique indexes are checked and the row is appended.  A violated
index aborts the statement with SQLite's text for it; both texts start
`UNIQUE constraint failed`, so which of the two is reported when both indexes are
violated makes no difference to the callers. -/
def execInsert (fault : Option String) (db : DB) (r : Row) : Except String DB :=
  match fault with
  | some msg => .error msg
  | none =>
    if db.any (fun x => x.email = r.email) then
      .error "UNIQUE constraint failed: users.email"
    else if db.any (fun x => x.id = r.id) then
      .error "UNIQUE constraint failed: users.id"
    else .ok (db ++ [r])

/-- The statement `UPDATE users SET name = ?, email = ?, updated_at = ? WHERE id = ?`.
Returns the new contents and the number of rows affected.  The statement is
aborted, leaving the table as it was, when the new email of a matched row is
held by another row. -/
def execUpdate (fault : Option String) (db : DB) (name email : String)
    (updated_at : RFC3339) (id : String) : Except String (DB × Nat) :=
  match fault with
  | some msg => .error msg
  | none =>
    if db.any (fun x => x.id = id) ∧ db.any (fun x => x.id ≠ id ∧ x.email = email) then
      .error "UNIQUE constraint failed: users.email"
    else
      .ok (db.map (fun x =>
              if x.id = id then
                { x with name := name, email := email, updated_at := updated_at }
              else x),
           (db.filter (fun x => x.id = id)).length)

/-- The queries `SELECT ... FROM users WHERE id = ?` and `... WHERE email = ?`
run through `QueryRowContext`: the first matching row, if any. -/
def queryRow (fault : Option String) (db : DB) (p : Row → Bool) :
    Except String (Option Row) :=
  match fault with
  | some msg => .error msg
  | none => .ok (db.find? p)

/-- SQLite `LOWER`: folds the ASCII letters only. -/
def sqlLower (s : List Char) : List Char := s.map Char.toLower

/-- SQLite `text LIKE pattern`: in the pattern `%` stands for any run of
characters (also the empty one) and `_` for exactly one character; every other
character stands for itself, ASCII letters without regard to case.  The query
has no `ESCAPE` clause, so the two wildcards cannot be quoted. -/
def likeMatch : List Char → List Char → Bool
  | [], text => text.isEmpty
  | p :: ps, text =>
    if p = '%' then text.tails.any (fun rest => likeMatch ps rest)
    else match text with
      | [] => false
      | c :: cs =>
        if p = '_' then likeMatch ps cs
        else p.toLower = c.toLower && likeMatch ps cs

/-- The clause `LIMIT ? OFFSET ?` of SQLite: a negative offset counts as zero and
a negative limit as no limit. -/
def sqlLimitOffset (limit offset : Int) (rows : List Row) : List Row :=
  let rest := rows.drop offset.toNat
  if limit < 0 then rest else rest.take limit.toNat

/-- The query of `List`: `SELECT ... FROM users WHERE LOWER(email) LIKE LOWER(?)
ORDER BY created_at DESC LIMIT ? OFFSET ?`.  Rows with the same `created_at`
keep their rowid order (SQLite leaves the order of ties open). -/
def queryList (fault : Option String) (db : DB) (pattern : String) (limit offset : Int) :
    Except String (List Row) :=
  match fault with
  | some msg => .error msg
  | none =>
    .ok (sqlLimitOffset limit offset
      ((db.filter (fun x => likeMatch (sqlLower pattern.data) (sqlLower x.email.data))).insertionSort
        (fun a b => b.created_at.sec ≤ a.created_at.sec)))

/-! ## The repository (`internal/repository/user_repository.go`) -/

/-- Source `isUniqueViolation`. -/
def isUniqueViolation (err : Error) : Bool :=
  stringsContains err.Error "UNIQUE constraint failed"

/-- Outcome of `(*sql.Row).Scan`: `sql.ErrNoRows` when the query gave no row,
the driver error when it failed. -/
def rowScan : Except String (Option Row) → Except Error Row
  | .error msg => .error (.external msg)
  | .ok none => .error .ErrNoRows
  | .ok (some r) => .ok r

/-- The column values `Create` passes to its `INSERT`: the identifier and the two
timestamps as text. -/
def rowOfUser (u : User) : Row :=
  { id := u.ID.String, name := u.Name, email := u.Email, password_hash := u.PasswordHash,
    created_at := Time.Format u.CreatedAt, updated_at := Time.Format u.UpdatedAt }

/-- The assignments after a successful `Scan` in `scanOne` and `scanRow`; the
errors of `uuid.Parse` and `time.Parse` are dropped there, a text that is no
UUID leaves the zero value. -/
def userOfRow (r : Row) : User :=
  { ID := (uuidParse r.id).getD UUID.Nil
    Name := r.name
    Email := r.email
    PasswordHash := r.password_hash
    CreatedAt := timeParse r.created_at
    UpdatedAt := timeParse r.updated_at }

/-- Source `scanOne`. -/
def scanOne (row : Except String (Option Row)) : Except Error User :=
  match rowScan row with
  | .error err =>
    if err.Is .ErrNoRows then .error .ErrNotFound
    else .error (.wrap "repository.scanOne" err)
  | .ok r => .ok (userOfRow r)

/-- Source `scanRow`. -/
def scanRow (r : Row) : Except Error User := .ok (userOfRow r)

namespace UserRepository

/-- Source `UserRepository.Create`: the error returned (`none` for nil) and the
table afterwards. -/
def Create (fault : Option String) (db : DB) (u : User) : Option Error × DB :=
  match execInsert fault db (rowOfUser u) with
  | .error msg =>
    if isUniqueViolation (.external msg) then (some .ErrEmailTaken, db)
    else (some (.wrap "repository.Create" (.external msg)), db)
  | .ok db2 => (none, db2)

/-- Source `UserRepository.GetByID`. -/
def GetByID (fault : Option String) (db : DB) (id : UUID) : Except Error User :=
  scanOne (queryRow fault db (fun x => x.id = id.String))

/-- Source `UserRepository.GetByEmail`. -/
def GetByEmail (fault : Option String) (db : DB) (email : String) : Except Error User :=
  scanOne (queryRow fault db (fun x => x.email = email))

/-- Source `UserRepository.Update`. -/
def Update (fault : Option String) (db : DB) (u : User) : Option Error × DB :=
  match execUpdate fault db u.Name u.Email (Time.Format u.UpdatedAt) u.ID.String with
  | .error msg =>
    if isUniqueViolation (.external msg) then (some .ErrEmailTaken, db)
    else (some (.wrap "repository.Update" (.external msg)), db)
  | .ok (db2, n) => if n = 0 then (some .ErrNotFound, db2) else (none, db2)

/-- Source `UserRepository.List`. -/
def List (fault : Option String) (db : DB) (emailFilter : String) (limit offset : Int) :
    Except Error (List User) :=
  match queryList fault db ("%" ++ emailFilter ++ "%") limit offset with
  | .error msg => .error (.wrap "repository.List" (.external msg))
  | .ok rows => rows.mapM scanRow

end UserRepository

/-! ## JSON Web Tokens (`golang-jwt/jwt/v5`) -/

/-- A JSON value in a claim set.  A number is represented by its integral part:
the library reads the numeric claims `exp` and `nbf` as dates cut to whole
seconds.  `other` is any value that is neither a string nor a number. -/
inductive JSON where
  | str (s : String)
  | num (n : Int)
  | other
deriving DecidableEq

/-- Go `jwt.MapClaims`: claim names with their values. -/
abbrev MapClaims := List (String × JSON)

/-- The signature segment of a token.  An HMAC tag is represented symbolically by
the algorithm, the key and the claims it was computed over, so a tag verifies
under a key exactly when it was made with that key over the same content;
`other` is any other byte string. -/
inductive Signature where
  | hmac (alg : String) (key : String) (claims : MapClaims)
  | other (bytes : String)
deriving DecidableEq

/-- A token whose three segments decode: the `alg` of its header, its claims and
its signature. -/
structure JWT where
  alg : String
  claims : MapClaims
  sig : Signature
deriving DecidableEq

/-- A Go string in token position: the compact serialization of a `JWT`, or a
text that does not split into three decodable segments. -/
inductive TokenString where
  | malformed (raw : String)
  | compact (t : JWT)
deriving DecidableEq

/-- The test `token == ""`. -/
def TokenString.isEmpty : TokenString → Bool
  | .malformed raw => raw = ""
  | .compact _ => false

/-- The reasons for which `jwt.Parse` returns an error. -/
inductive JWTError where
  | malformed
  | unverifiable
  | signatureInvalid
  | invalidClaims
  | expired
  | notValidYet
deriving DecidableEq

/-- Go `jwt.GetSigningMethod(alg)`, as far as the key function looks at it:
`some true` for a method of type `*jwt.SigningMethodHMAC`, `some false` for
another registered method, `none` for a name that is not registered. -/
def getSigningMethod (alg : String) : Option Bool :=
  if alg ∈ ["HS256", "HS384", "HS512"] then some true
  else if alg ∈ ["RS256", "RS384", "RS512", "PS256", "PS384", "PS512",
                 "ES256", "ES384", "ES512", "EdDSA", "none"] then some false
  else none

/-- Go `MapClaims.parseNumericDate(key)`: no date when the claim is absent or is
the number 0, an error when it is not a number. -/
def parseNumericDate (claims : MapClaims) (key : String) : Except JWTError (Option Int) :=
  match claims.lookup key with
  | none => .ok none
  | some (.num n) => if n = 0 then .ok none else .ok (some n)
  | some _ => .error .invalidClaims

/-- The default `Validator.Validate` of the library at time `now`: `exp`, when
present, must lie after `now`; `nbf`, when present, must not lie after `now`;
`iat` is not looked at. -/
def validateClaims (claims : MapClaims) (now : Time) : Except JWTError Unit :=
  match parseNumericDate claims "exp" with
  | .error e => .error e
  | .ok exp =>
    if exp.any (fun e => ¬ now < e * nanosPerSecond) then .error .expired
    else match parseNumericDate claims "nbf" with
      | .error e => .error e
      | .ok nbf =>
        if nbf.any (fun n => now < n * nanosPerSecond) then .error .notValidYet
        else .ok ()

/-- Go `jwt.Parse(tokenStr, keyFunc)` at time `now`.  `keyFunc` receives what
`getSigningMethod` found for the header and returns the key or an error. -/
def jwtParse (tokenStr : TokenString) (keyFunc : Bool → Option String) (now : Time) :
    Except JWTError MapClaims :=
  match tokenStr with
  | .malformed _ => .error .malformed
  | .compact t =>
    match getSigningMethod t.alg with
    | none => .error .unverifiable
    | some isHMAC =>
      match keyFunc isHMAC with
      | none => .error .unverifiable
      | some key =>
        if t.sig = .hmac t.alg key t.claims then
          match validateClaims t.claims now with
          | .error e => .error e
          | .ok _ => .ok t.claims
        else .error .signatureInvalid

/-! ## The service (`internal/service/user_service.go`) -/

/-- The struct `model.AuthResponse`. -/
structure AuthResponse where
  Token : TokenString
  User : User
deriving DecidableEq

/-- The struct `service.UserService`; its `repo` field is the handle of the
table, whose contents the operations take and return. -/
structure UserService where
  jwtSecret : String
  jwtExpiry : Duration

/-- Source `UserService.issueToken`.  `iatNow` and `expNow` are the two readings
of `time.Now()`, in that order.  Signing with HS256 and a byte-slice key does not
fail. -/
def UserService.issueToken (s : UserService) (u : User) (iatNow expNow : Time) :
    Except Error TokenString :=
  let claims : MapClaims :=
    [("sub", .str u.ID.String), ("email", .str u.Email),
     ("iat", .num (Time.Unix iatNow)), ("exp", .num (Time.Unix (expNow + s.jwtExpiry)))]
  .ok (.compact { alg := "HS256", claims := claims, sig := .hmac "HS256" s.jwtSecret claims })

/-- What `Register` takes from its surroundings: the salt bcrypt draws (or its
failure), the reading of `time.Now().UTC()`, the result of `uuid.New()`, a
failure of the database, and the two clock readings of `issueToken`. -/
structure RegisterEnv where
  salt : Except String String
  now : Time
  newID : UUID
  dbFault : Option String
  iatNow : Time
  expNow : Time

/-- Source `UserService.Register`. -/
def UserService.Register (s : UserService) (env : RegisterEnv) (db : DB)
    (req : RegisterRequest) : Except Error AuthResponse × DB :=
  match bcryptGenerateFromPassword env.salt req.Password with
  | .error err => (.error (.wrap "service.Register" err), db)
  | .ok hash =>
    let now := env.now
    let u : User :=
      { ID := env.newID, Name := req.Name, Email := req.Email, PasswordHash := hash,
        CreatedAt := now, UpdatedAt := now }
    match UserRepository.Create env.dbFault db u with
    | (some err, db2) => (.error err, db2)
    | (none, db2) =>
      match s.issueToken u env.iatNow env.expNow with
      | .error err => (.error err, db2)
      | .ok token => (.ok { Token := token, User := u }, db2)

/-- What `SignIn` takes from its surroundings. -/
structure SignInEnv where
  dbFault : Option String
  iatNow : Time
  expNow : Time

/-- Source `UserService.SignIn`; the table is only read. -/
def UserService.SignIn (s : UserService) (env : SignInEnv) (db : DB)
    (req : SignInRequest) : Except Error AuthResponse :=
  match UserRepository.GetByEmail env.dbFault db req.Email with
  | .error err =>
    if err.Is .ErrNotFound then .error .ErrInvalidCredentials
    else .error err
  | .ok u =>
    if ¬ bcryptCompareHashAndPassword u.PasswordHash req.Password then
      .error .ErrInvalidCredentials
    else match s.issueToken u env.iatNow env.expNow with
      | .error err => .error err
      | .ok token => .ok { Token := token, User := u }

/-- Source `UserService.GetByID`. -/
def UserService.GetByID (_s : UserService) (fault : Option String) (db : DB) (id : UUID) :
    Except Error User :=
  UserRepository.GetByID fault db id

/-- What `UpdateUser` takes from its surroundings: a failure of the read, the
reading of `time.Now().UTC()`, a failure of the write. -/
structure UpdateEnv where
  getFault : Option String
  now : Time
  updateFault : Option String

/-- Source `UserService.UpdateUser`. -/
def UserService.UpdateUser (_s : UserService) (env : UpdateEnv) (db : DB) (id : UUID)
    (req : UpdateUserRequest) : Except Error User × DB :=
  match UserRepository.GetByID env.getFault db id with
  | .error err => (.error err, db)
  | .ok u0 =>
    let u1 := if req.Name ≠ "" then { u0 with Name := req.Name } else u0
    let u2 := if req.Email ≠ "" then { u1 with Email := req.Email } else u1
    let u := { u2 with UpdatedAt := env.now }
    match UserRepository.Update env.updateFault db u with
    | (some err, db2) => (.error err, db2)
    | (none, db2) => (.ok u, db2)

/-- Source `UserService.ListUsers`. -/
def UserService.ListUsers (_s : UserService) (fault : Option String) (db : DB)
    (q : ListUsersQuery) : Except Error (List User) :=
  let q := if q.Limit ≤ 0 ∨ q.Limit > 100 then { q with Limit := 20 } else q
  UserRepository.List fault db q.Email q.Limit q.Offset

/-! ## The authorization gate (`internal/middleware/auth.go`) -/

/-- The value of the `Authorization` header: `bearer t` is the text `Bearer `
followed by the compact serialization of `t`; `text raw` is any other value,
also the empty one of an absent header. -/
inductive HeaderValue where
  | text (raw : String)
  | bearer (t : JWT)
deriving DecidableEq

/-- Go `strings.HasPrefix(header, "Bearer ")`. -/
def HeaderValue.hasBearer : HeaderValue → Bool
  | .text raw => "Bearer ".data.isPrefixOf raw.data
  | .bearer _ => true

/-- Go `strings.TrimPrefix(header, "Bearer ")` for a header that starts so. -/
def HeaderValue.trimBearer : HeaderValue → TokenString
  | .text raw => .malformed (String.mk (raw.data.drop 7))
  | .bearer t => .compact t

/-- A JSON object with text members, as `gin.H` literals of the sources are. -/
abbrev Body := List (String × String)

/-- What the middleware does with a request: `abort status body` is
`c.AbortWithStatusJSON(status, body)` followed by `return`, after which no
further handler runs; `next userID` is `c.Set(UserIDKey, userID)` followed by
`c.Next()`. -/
inductive GateResult where
  | abort (status : Nat) (body : Body)
  | next (userID : UUID)
deriving DecidableEq

/-- Go `v, _ := claims[key].(string)`: the claim when it is a string, the empty
string when it is absent or of another type. -/
def claimString (claims : MapClaims) (key : String) : String :=
  match claims.lookup key with
  | some (.str s) => s
  | _ => ""

/-- The key function `JWTAuth` hands to `jwt.Parse`: the secret for an HMAC
method, an error for every other one. -/
def JWTAuth.keyFunc (secret : String) (isHMAC : Bool) : Option String :=
  if ¬ isHMAC then none else some secret

/-- Source `JWTAuth`: the handler it returns, run at time `now` on a request with
the given `Authorization` header.  `jwt.Parse` always yields `jwt.MapClaims`, so
the type assertion on `token.Claims` holds. -/
def JWTAuth (secret : String) (now : Time) (header : HeaderValue) : GateResult :=
  if ¬ header.hasBearer then
    .abort 401 [("error", "unauthorized"),
                ("message", "missing or invalid authorization header")]
  else
    let tokenStr := header.trimBearer
    match jwtParse tokenStr (JWTAuth.keyFunc secret) now with
    | .error _ =>
      .abort 401 [("error", "unauthorized"), ("message", "invalid or expired token")]
    | .ok claims =>
      let sub := claimString claims "sub"
      match uuidParse sub with
      | none => .abort 401 [("error", "unauthorized")]
      | some userID => .next userID

/-! ## Example data -/

/-- A registered user, as in the tests. -/
def exAlice : User :=
  { ID := ⟨1, by norm_num⟩, Name := "Alice", Email := "alice@example.com",
    PasswordHash := .bcrypt "salt" (bcryptKey "secret123"),
    CreatedAt := 1700000000000000000, UpdatedAt := 1700000000000000000 }

/-- A store that holds `exAlice` only. -/
def exStore : DB := (UserRepository.Create none [] exAlice).2

/-- A second user with an email of its own and the identifier of `exAlice`. -/
def exBobSameID : User :=
  { ID := ⟨1, by norm_num⟩, Name := "Bob", Email := "bob@example.com",
    PasswordHash := .bcrypt "salt" (bcryptKey "hunter2hunter2"),
    CreatedAt := 1700000001000000000, UpdatedAt := 1700000001000000000 }

/-- The service of the tests: secret `test-secret`, tokens live 24 hours. -/
def exService : UserService :=
  { jwtSecret := "test-secret", jwtExpiry := 86400 * nanosPerSecond }

/-- The token `issueToken` makes for `exAlice` when both clock readings are half a
second past a whole second. -/
def exToken : JWT :=
  { alg := "HS256"
    claims := [("sub", .str "00000000-0000-0000-0000-000000000001"),
               ("email", .str "alice@example.com"),
               ("iat", .num 1700000000), ("exp", .num 1700086400)]
    sig := .hmac "HS256" "test-secret"
             [("sub", .str "00000000-0000-0000-0000-000000000001"),
              ("email", .str "alice@example.com"),
              ("iat", .num 1700000000), ("exp", .num 1700086400)] }

/-! ## Further definitions used in the statements -/

/-- The spec's words for the filter of `List`: the email contains the filter as a
literal substring, ASCII letters compared without regard to case. -/
def specEmailContains (email filter : String) : Bool :=
  containsChars (sqlLower filter.data) (sqlLower email.data)

/-- A call of the service that can write to the store, with what it takes from
its surroundings. -/
inductive Call where
  | register (env : RegisterEnv) (req : RegisterRequest)
  | updateUser (env : UpdateEnv) (id : UUID) (req : UpdateUserRequest)

/-- The store after one call, whether the call succeeded or failed. -/
def UserService.step (s : UserService) (db : DB) : Call → DB
  | .register env req => (s.Register env db req).2
  | .updateUser env id req => (s.UpdateUser env db id req).2

/-- The store after a sequence of calls. -/
def UserService.run (s : UserService) (db : DB) (calls : List Call) : DB :=
  calls.foldl s.step db

/-- The invariant of the store: the schema constraints hold and every `id` is the
canonical text of a UUID. -/
def DB.Inv (db : DB) : Prop :=
  db.Valid ∧ ∀ x ∈ db, ∃ u : UUID, x.id = u.String

/-- A second registered user. -/
def exBob : User :=
  { ID := ⟨2, by norm_num⟩, Name := "Bob", Email := "bob@example.com",
    PasswordHash := .bcrypt "salt" (bcryptKey "hunter2hunter2"),
    CreatedAt := 1700000001000000000, UpdatedAt := 1700000001000000000 }

/-- A store that holds `exAlice` and `exBob`. -/
def exStore2 : DB := (UserRepository.Create none exStore exBob).2

/-- The surroundings of a registration half a second past a whole second. -/
def exRegisterEnv : RegisterEnv :=
  { salt := .ok "salt", now := 1700000000500000000, newID := ⟨1, by norm_num⟩, dbFault := none,
    iatNow := 1700000000500000000, expNow := 1700000000500000000 }

/-- The registration request of the tests. -/
def exRegisterRequest : RegisterRequest :=
  { Name := "Alice", Email := "alice@example.com", Password := "secret123" }

/-- A sequence of calls: Alice registers, registers again, then asks for a new name
and the same email. -/
def exCalls : List Call :=
  [.register exRegisterEnv exRegisterRequest,
   .register exRegisterEnv exRegisterRequest,
   .updateUser ⟨none, 1700000009500000000, none⟩ ⟨1, by norm_num⟩
      ⟨"Alice Smith", "alice@example.com"⟩]

/-- A token signed with the secret of the tests, not expired at the times used
below, whose subject claim is no UUID. -/
def exBadSubToken : JWT :=
  { alg := "HS256"
    claims := [("sub", .str "not-a-uuid"), ("email", .str "alice@example.com"),
               ("iat", .num 1700000000), ("exp", .num 1800000000)]
    sig := .hmac "HS256" "test-secret"
             [("sub", .str "not-a-uuid"), ("email", .str "alice@example.com"),
              ("iat", .num 1700000000), ("exp", .num 1800000000)] }

/-! ## Error responses (`internal/handler/respond.go`) -/

/-- What `c.JSON(status, body)` writes. -/
structure Response where
  status : Nat
  body : Body
deriving DecidableEq

/-- Source `fail`: the response written for an error of the service. -/
def handler.fail (err : Error) : Response :=
  if err.Is .ErrNotFound then
    { status := 404, body := [("error", "not_found"), ("message", "user not found")] }
  else if err.Is .ErrEmailTaken then
    { status := 409, body := [("error", "conflict"), ("message", "email already in use")] }
  else if err.Is .ErrInvalidCredentials then
    { status := 401
      body := [("error", "invalid_credentials"), ("message", "email or password is incorrect")] }
  else
    { status := 500, body := [("error", "internal_error")] }

/-- The classes of errors the claims speak of. -/
inductive ErrorClass where
  | notFound
  | emailTaken
  | invalidCredentials
  | other
deriving DecidableEq

/-- The error at the end of the `%w` chain of an error. -/
def Error.cause : UserMgmt.Error → UserMgmt.Error
  | .wrap _ e => e.cause
  | e => e

/-- The class of an error, in the spec's words: that of the error it wraps, and for
an error that wraps nothing the sentinel it is, or `other`. -/
def classOf (err : Error) : ErrorClass :=
  match err.cause with
  | .ErrNotFound => .notFound
  | .ErrEmailTaken => .emailTaken
  | .ErrInvalidCredentials => .invalidCredentials
  | _ => .other

/-- The response the spec's words assign to a class: status and identifier. -/
def classStatus : ErrorClass → Nat × String
  | .notFound => (404, "not_found")
  | .emailTaken => (409, "conflict")
  | .invalidCredentials => (401, "invalid_credentials")
  | .other => (500, "internal_error")

/-- An error of the database driver as `Create` wraps it. -/
def exStoreError : Error :=
  .wrap "repository.Create" (.external "disk I/O error")

/-- An identifier no row of `exStore2` has. -/
def exUnusedID : UUID := ⟨3, by norm_num⟩

/-- A password of 72 bytes. -/
def exLongPassword : String := String.mk (List.replicate 72 'a')

/-- A registration with the password of 72 bytes. -/
def exLongRegisterRequest : RegisterRequest :=
  { Name := "Alice", Email := "alice@example.com", Password := exLongPassword }

/-- The store after that registration on the empty store. -/
def exLongStore : DB := (exService.Register exRegisterEnv [] exLongRegisterRequest).2

/-! # Theorems -/

/-! ## Lemmas on the library models -/

theorem hexValue_hexDigit (d : Nat) (h : d < 16) : hexValue (hexDigit d) = some d := by
  have key : ∀ k : Fin 16, hexValue (hexDigit k.val) = some k.val := by decide
  exact key ⟨d, h⟩

theorem readHex_succ (w : Nat) : ∀ (acc : Nat) (cs : List Char),
    readHex (w + 1) acc cs = (readHex w acc cs).bind (fun p => readHex 1 p.1 p.2) := by
  induction w with
  | zero => intro acc cs; simp [readHex]
  | succ w ih =>
    intro acc cs
    cases cs with
    | nil => simp [readHex]
    | cons c cs =>
      rw [readHex]
      cases hv : hexValue c with
      | none => simp [readHex, hv]
      | some v =>
        simp only []
        rw [ih]
        conv_rhs => rw [readHex]
        simp [hv]

theorem readHex_toHex (w : Nat) : ∀ (n acc : Nat) (rest : List Char),
    readHex w acc (toHex w n ++ rest) = some (acc * 16 ^ w + n % 16 ^ w, rest) := by
  induction w with
  | zero => intro n acc rest; simp [readHex, toHex, Nat.mod_one]
  | succ w ih =>
    intro n acc rest
    rw [readHex_succ, toHex, List.append_assoc, ih]
    simp only [Option.some_bind, List.singleton_append, readHex,
      hexValue_hexDigit (n % 16) (Nat.mod_lt _ (by norm_num))]
    congr 2
    have h1 : n % 16 ^ (w + 1) = n % 16 + 16 * (n / 16 % 16 ^ w) := by
      rw [pow_succ, mul_comm, Nat.mod_mul]
    rw [h1, pow_succ]
    ring

theorem uuidParse_String (u : UUID) : uuidParse u.String = some u := by
  have hu := u.isLt
  unfold uuidParse UUID.String
  simp only []
  rw [readHex_toHex]
  simp only [readHyphen, if_true]
  rw [readHex_toHex]
  simp only [readHyphen, if_true]
  rw [readHex_toHex]
  simp only [readHyphen, if_true]
  rw [readHex_toHex]
  simp only [readHyphen, if_true]
  have h5 := readHex_toHex 12 u.val 0 []
  rw [List.append_nil] at h5
  rw [h5]
  simp only [Fin.ofNat', zero_mul, zero_add, if_true]
  congr 1
  apply Fin.ext
  simp only []
  norm_num at hu ⊢
  omega

theorem UUID.String_injective {u v : UUID} (h : u.String = v.String) : u = v := by
  have hu := uuidParse_String u
  rw [h, uuidParse_String v] at hu
  exact (Option.some.inj hu).symm

/-! ## Lemmas on the store -/

theorem isUniqueViolation_email :
    isUniqueViolation (.external "UNIQUE constraint failed: users.email") = true := by decide

theorem isUniqueViolation_id :
    isUniqueViolation (.external "UNIQUE constraint failed: users.id") = true := by decide

theorem Create_email_exists (db : DB) (u : User) (h : ∃ x ∈ db, x.email = u.Email) :
    UserRepository.Create none db u = (some .ErrEmailTaken, db) := by
  have hany : db.any (fun x => decide (x.email = u.Email)) = true := by
    simpa [List.any_eq_true] using h
  simp [UserRepository.Create, execInsert, rowOfUser, hany, isUniqueViolation_email]

theorem Create_id_exists (db : DB) (u : User) (h : ∃ x ∈ db, x.id = u.ID.String) :
    UserRepository.Create none db u = (some .ErrEmailTaken, db) := by
  have hany : db.any (fun x => decide (x.id = u.ID.String)) = true := by
    simpa [List.any_eq_true] using h
  by_cases he : db.any (fun x => decide (x.email = u.Email)) = true
  · simp [UserRepository.Create, execInsert, rowOfUser, he, isUniqueViolation_email]
  · simp [UserRepository.Create, execInsert, rowOfUser, he, hany, isUniqueViolation_id]

theorem Create_fresh (db : DB) (u : User) (he : ∀ x ∈ db, x.email ≠ u.Email)
    (hi : ∀ x ∈ db, x.id ≠ u.ID.String) :
    UserRepository.Create none db u = (none, db ++ [rowOfUser u]) := by
  have h1 : db.any (fun x => decide (x.email = u.Email)) = false := by
    simpa [List.any_eq_false] using he
  have h2 : db.any (fun x => decide (x.id = u.ID.String)) = false := by
    simpa [List.any_eq_false] using hi
  simp [UserRepository.Create, execInsert, h1, h2, rowOfUser]

theorem Create_fault (db : DB) (u : User) (msg : String)
    (h : stringsContains msg "UNIQUE constraint failed" = false) :
    UserRepository.Create (some msg) db u
      = (some (.wrap "repository.Create" (.external msg)), db) := by
  simp [UserRepository.Create, execInsert, isUniqueViolation, Error.Error, h]

/-- Whatever happens, `Create` either leaves the table as it was and reports an
error, or reports none and has appended the user's row, whose email and
identifier were both free. -/
theorem Create_cases (fault : Option String) (db : DB) (u : User) :
    ((UserRepository.Create fault db u).1 ≠ none ∧ (UserRepository.Create fault db u).2 = db) ∨
    ((UserRepository.Create fault db u).1 = none ∧
      (UserRepository.Create fault db u).2 = db ++ [rowOfUser u] ∧
      (∀ x ∈ db, x.email ≠ u.Email) ∧ (∀ x ∈ db, x.id ≠ u.ID.String)) := by
  cases fault with
  | some msg =>
    left
    simp only [UserRepository.Create, execInsert]
    split <;> simp
  | none =>
    by_cases he : ∃ x ∈ db, x.email = u.Email
    · left; simp [Create_email_exists db u he]
    · by_cases hi : ∃ x ∈ db, x.id = u.ID.String
      · left; simp [Create_id_exists db u hi]
      · right
        push_neg at he hi
        simp [Create_fresh db u he hi]
        exact ⟨he, hi⟩

/-! ## C1 -/

/-- C1, the code at the failing input: the store holds Alice; `Create` is called
with a user whose email `bob@example.com` is not in the store and whose
identifier is the one of Alice.  No row has the new email, and still `Create`
returns `ErrEmailTaken`, where the claim asks for a generic store error that is
not `ErrEmailTaken`. -/
theorem C1_Create_duplicate_id_returns_ErrEmailTaken :
    (∀ x ∈ exStore, x.email ≠ exBobSameID.Email) ∧
    (∃ x ∈ exStore, x.id = exBobSameID.ID.String) ∧
    UserRepository.Create none exStore exBobSameID = (some .ErrEmailTaken, exStore) := by
  decide

/-! ## C2 -/

theorem issueToken_ok (s : UserService) (u : User) (iatNow expNow : Time) :
    ∃ t : JWT, s.issueToken u iatNow expNow = .ok (.compact t) ∧
      t.alg = "HS256" ∧ t.sig = .hmac "HS256" s.jwtSecret t.claims ∧
      t.claims = [("sub", .str u.ID.String), ("email", .str u.Email),
        ("iat", .num (Time.Unix iatNow)), ("exp", .num (Time.Unix (expNow + s.jwtExpiry)))] :=
  ⟨_, rfl, rfl, rfl, rfl⟩

theorem GetByEmail_none (db : DB) (email : String) (h : ∀ x ∈ db, x.email ≠ email) :
    UserRepository.GetByEmail none db email = .error .ErrNotFound := by
  have hf : db.find? (fun x => decide (x.email = email)) = none := by
    simpa [List.find?_eq_none] using h
  simp [UserRepository.GetByEmail, queryRow, scanOne, rowScan, hf, Error.Is]

theorem GetByEmail_some (db : DB) (email : String) (r : Row)
    (h : db.find? (fun x => decide (x.email = email)) = some r) :
    UserRepository.GetByEmail none db email = .ok (userOfRow r) := by
  simp [UserRepository.GetByEmail, queryRow, scanOne, rowScan, h]

/-- Sign-in on any store, the database answering.  (1) When the row with the
request's email carries a hash that bcrypt generated from the request's password,
`SignIn` returns a non-empty token and that row's user.  (2) When no row has the
email, and (3) when the row with the email carries a hash that
`bcrypt.CompareHashAndPassword` does not verify for the request's password,
`SignIn` returns the one error value `ErrInvalidCredentials`, hence no token and
no user.  (4) A hash generated from a password with other key material than the
request's password is not verified by the comparison. -/
theorem SignIn_results (s : UserService) (db : DB) (req : SignInRequest)
    (iatNow expNow : Time) :
    (∀ r salt, db.find? (fun x => decide (x.email = req.Email)) = some r →
        bcryptGenerateFromPassword (.ok salt) req.Password = .ok r.password_hash →
        ∃ token, token.isEmpty = false ∧ (userOfRow r).Email = req.Email ∧
          s.SignIn ⟨none, iatNow, expNow⟩ db req = .ok ⟨token, userOfRow r⟩) ∧
    ((∀ x ∈ db, x.email ≠ req.Email) →
        s.SignIn ⟨none, iatNow, expNow⟩ db req = .error .ErrInvalidCredentials) ∧
    (∀ r, db.find? (fun x => decide (x.email = req.Email)) = some r →
        bcryptCompareHashAndPassword r.password_hash req.Password = false →
        s.SignIn ⟨none, iatNow, expNow⟩ db req = .error .ErrInvalidCredentials) ∧
    (∀ (h : HashText) salt password,
        bcryptGenerateFromPassword (.ok salt) password = .ok h →
        bcryptKey password ≠ bcryptKey req.Password →
        bcryptCompareHashAndPassword h req.Password = false) := by
  refine ⟨?_, ?_, ?_, ?_⟩
  · intro r salt hfind hgen
    have hhash : r.password_hash = .bcrypt salt (bcryptKey req.Password) := by
      simp [bcryptGenerateFromPassword] at hgen
      exact hgen.symm
    have hemail : r.email = req.Email := by
      have := List.find?_some hfind
      simpa using this
    obtain ⟨t, ht, -⟩ := issueToken_ok s (userOfRow r) iatNow expNow
    refine ⟨.compact t, rfl, ?_, ?_⟩
    · simpa [userOfRow] using hemail
    · have hcmp : bcryptCompareHashAndPassword (userOfRow r).PasswordHash req.Password = true := by
        simp [userOfRow, hhash, bcryptCompareHashAndPassword]
      simp [UserService.SignIn, GetByEmail_some db req.Email r hfind, hcmp, ht]
  · intro h
    simp [UserService.SignIn, GetByEmail_none db req.Email h, Error.Is]
  · intro r hfind hcmp
    have hcmp2 : bcryptCompareHashAndPassword (userOfRow r).PasswordHash req.Password = false :=
      hcmp
    simp [UserService.SignIn, GetByEmail_some db req.Email r hfind, hcmp2]
  · intro h salt password hgen hne
    have hhash : h = .bcrypt salt (bcryptKey password) := by
      simp [bcryptGenerateFromPassword] at hgen
      exact hgen.symm
    simp [hhash, bcryptCompareHashAndPassword, hne]

/-- The store that holds Alice: the registered password signs in, an unknown email
and a password with other key material give equal results. -/
theorem SignIn_results_example :
    (∃ token, token.isEmpty = false ∧
      exService.SignIn ⟨none, 1700000100000000000, 1700000100000000000⟩ exStore
        ⟨"alice@example.com", "secret123"⟩ = .ok ⟨token, exAlice⟩) ∧
    exService.SignIn ⟨none, 1700000100000000000, 1700000100000000000⟩ exStore
        ⟨"nobody@example.com", "secret123"⟩
      = exService.SignIn ⟨none, 1700000100000000000, 1700000100000000000⟩ exStore
        ⟨"alice@example.com", "wrongpassword"⟩ := by
  have h1 := (SignIn_results exService exStore ⟨"alice@example.com", "secret123"⟩
    1700000100000000000 1700000100000000000).1 (rowOfUser exAlice) "salt" (by decide) rfl
  have h2 := (SignIn_results exService exStore ⟨"nobody@example.com", "secret123"⟩
    1700000100000000000 1700000100000000000).2.1 (by decide)
  have h3 := (SignIn_results exService exStore ⟨"alice@example.com", "wrongpassword"⟩
    1700000100000000000 1700000100000000000).2.2.1 (rowOfUser exAlice)
    (by decide) (by decide)
  refine ⟨?_, h2.trans h3.symm⟩
  obtain ⟨token, ht, _, hs⟩ := h1
  refine ⟨token, ht, ?_⟩
  rw [hs]
  have : userOfRow (rowOfUser exAlice) = exAlice := by decide
  rw [this]

/-- C2, the code at the failing input: Alice registers with a password of 72
bytes; `SignIn` with her email and that password followed by `x`, which is
another password, returns what `SignIn` with the registered password returns: a
non-empty token and her user, where the claim asks for `ErrInvalidCredentials`. -/
theorem C2_SignIn_accepts_longer_password :
    (exService.Register exRegisterEnv [] exLongRegisterRequest).1.toOption.map
        (fun resp => resp.User.Email) = some "alice@example.com" ∧
    exLongPassword ++ "x" ≠ exLongPassword ∧
    exService.SignIn ⟨none, 1700000100000000000, 1700000100000000000⟩ exLongStore
        ⟨"alice@example.com", exLongPassword ++ "x"⟩
      = exService.SignIn ⟨none, 1700000100000000000, 1700000100000000000⟩ exLongStore
        ⟨"alice@example.com", exLongPassword⟩ ∧
    (exService.SignIn ⟨none, 1700000100000000000, 1700000100000000000⟩ exLongStore
        ⟨"alice@example.com", exLongPassword ++ "x"⟩).toOption.map
        (fun resp => (resp.Token.isEmpty, resp.User.Email))
      = some (false, "alice@example.com") := by
  refine ⟨by decide, by decide, by rfl, by decide⟩

/-! ## C3 -/

theorem second_bounds (x : Int) :
    x / nanosPerSecond * nanosPerSecond ≤ x ∧
    x < x / nanosPerSecond * nanosPerSecond + nanosPerSecond := by
  unfold nanosPerSecond
  omega

theorem JWTAuth_issued (secret idText email : String) (iat exp : Int) (now2 : Time) :
    JWTAuth secret now2 (.bearer
        { alg := "HS256"
          claims := [("sub", .str idText), ("email", .str email), ("iat", .num iat),
                     ("exp", .num exp)]
          sig := .hmac "HS256" secret
                   [("sub", .str idText), ("email", .str email), ("iat", .num iat),
                    ("exp", .num exp)] })
      = if exp ≠ 0 ∧ ¬ now2 < exp * nanosPerSecond then
          .abort 401 [("error", "unauthorized"), ("message", "invalid or expired token")]
        else match uuidParse idText with
          | none => .abort 401 [("error", "unauthorized")]
          | some userID => .next userID := by
  by_cases h0 : exp = 0
  · simp [JWTAuth, HeaderValue.hasBearer, HeaderValue.trimBearer, jwtParse, getSigningMethod,
      JWTAuth.keyFunc, validateClaims, parseNumericDate, claimString, List.lookup, h0]
  · by_cases hle : exp * nanosPerSecond ≤ now2
    · simp [JWTAuth, HeaderValue.hasBearer, HeaderValue.trimBearer, jwtParse, getSigningMethod,
        JWTAuth.keyFunc, validateClaims, parseNumericDate, claimString, List.lookup, h0, hle]
    · simp [JWTAuth, HeaderValue.hasBearer, HeaderValue.trimBearer, jwtParse, getSigningMethod,
        JWTAuth.keyFunc, validateClaims, parseNumericDate, claimString, List.lookup, h0, hle]

/-- C3, counterexample: the token issued for Alice at 1700000000.5 s with a
life of 24 hours is presented at 1700086400.2 s, which is after the issue time
and before issue time plus life, and `JWTAuth` rejects it. -/
theorem C3_counterexample :
    exService.issueToken exAlice 1700000000500000000 1700000000500000000
        = .ok (.compact exToken) ∧
    (1700000000500000000 : Time) ≤ 1700086400200000000 ∧
    (1700086400200000000 : Time) < 1700000000500000000 + exService.jwtExpiry ∧
    JWTAuth exService.jwtSecret 1700086400200000000 (.bearer exToken)
        = .abort 401 [("error", "unauthorized"), ("message", "invalid or expired token")] := by
  refine ⟨rfl, by decide, by decide, by decide⟩

/-- C3, amended: let `e` be the second reading of the clock in `issueToken` plus
the time-to-live, cut to whole seconds, and let `e` not be second 0 of the epoch.
The issued token is accepted by `JWTAuth`, with the user's identifier as subject,
at every time before second `e`, and rejected at every time from second `e` on;
so it is rejected at every time `now2 ≥ now + ttl` and accepted at every time
that is at least one second before `now + ttl`. -/
theorem C3_token_window (s : UserService) (u : User) (iatNow expNow now2 : Time)
    (hexp : Time.Unix (expNow + s.jwtExpiry) ≠ 0) :
    ∃ t : JWT, s.issueToken u iatNow expNow = .ok (.compact t) ∧
      (now2 < Time.Unix (expNow + s.jwtExpiry) * nanosPerSecond →
        JWTAuth s.jwtSecret now2 (.bearer t) = .next u.ID) ∧
      (Time.Unix (expNow + s.jwtExpiry) * nanosPerSecond ≤ now2 →
        JWTAuth s.jwtSecret now2 (.bearer t)
          = .abort 401 [("error", "unauthorized"), ("message", "invalid or expired token")]) ∧
      (expNow + s.jwtExpiry ≤ now2 →
        JWTAuth s.jwtSecret now2 (.bearer t)
          = .abort 401 [("error", "unauthorized"), ("message", "invalid or expired token")]) ∧
      (now2 + nanosPerSecond ≤ expNow + s.jwtExpiry →
        JWTAuth s.jwtSecret now2 (.bearer t) = .next u.ID) := by
  have hfloor : Time.Unix (expNow + s.jwtExpiry) * nanosPerSecond ≤ expNow + s.jwtExpiry ∧
      expNow + s.jwtExpiry < Time.Unix (expNow + s.jwtExpiry) * nanosPerSecond + nanosPerSecond := by
    exact second_bounds _
  have hacc : now2 < Time.Unix (expNow + s.jwtExpiry) * nanosPerSecond →
      JWTAuth s.jwtSecret now2 (.bearer
        { alg := "HS256"
          claims := [("sub", .str u.ID.String), ("email", .str u.Email),
            ("iat", .num (Time.Unix iatNow)), ("exp", .num (Time.Unix (expNow + s.jwtExpiry)))]
          sig := .hmac "HS256" s.jwtSecret
            [("sub", .str u.ID.String), ("email", .str u.Email),
             ("iat", .num (Time.Unix iatNow)),
             ("exp", .num (Time.Unix (expNow + s.jwtExpiry)))] }) = .next u.ID := by
    intro h
    rw [JWTAuth_issued]
    simp [h, uuidParse_String]
  have hrej : Time.Unix (expNow + s.jwtExpiry) * nanosPerSecond ≤ now2 →
      JWTAuth s.jwtSecret now2 (.bearer
        { alg := "HS256"
          claims := [("sub", .str u.ID.String), ("email", .str u.Email),
            ("iat", .num (Time.Unix iatNow)), ("exp", .num (Time.Unix (expNow + s.jwtExpiry)))]
          sig := .hmac "HS256" s.jwtSecret
            [("sub", .str u.ID.String), ("email", .str u.Email),
             ("iat", .num (Time.Unix iatNow)),
             ("exp", .num (Time.Unix (expNow + s.jwtExpiry)))] })
        = .abort 401 [("error", "unauthorized"), ("message", "invalid or expired token")] := by
    intro h
    rw [JWTAuth_issued]
    simp [hexp, not_lt.mpr h]
  refine ⟨_, rfl, hacc, hrej, ?_, ?_⟩
  · intro h
    exact hrej (le_trans hfloor.1 h)
  · intro h
    apply hacc
    have h2 := hfloor.2
    linarith

/-- Witness for C3 with the service of the tests and the issue time of the
counterexample: accepted one second before the end, rejected at the end. -/
theorem C3_token_window_witness :
    Time.Unix (1700000000500000000 + exService.jwtExpiry) ≠ 0 ∧
    ∃ t : JWT, exService.issueToken exAlice 1700000000500000000 1700000000500000000
        = .ok (.compact t) ∧
      JWTAuth exService.jwtSecret 1700086399500000000 (.bearer t) = .next exAlice.ID ∧
      JWTAuth exService.jwtSecret 1700086400500000000 (.bearer t)
        = .abort 401 [("error", "unauthorized"), ("message", "invalid or expired token")] := by
  refine ⟨by decide, ?_⟩
  obtain ⟨t, ht, h1, -, -, -⟩ := C3_token_window exService exAlice 1700000000500000000
    1700000000500000000 1700086399500000000 (by decide)
  obtain ⟨t2, ht2, -, -, h3, -⟩ := C3_token_window exService exAlice 1700000000500000000
    1700000000500000000 1700086400500000000 (by decide)
  have htt : t2 = t := by
    rw [ht] at ht2
    injection ht2 with h
    injection h with h
    exact h.symm
  subst htt
  exact ⟨t2, ht, h1 (by decide), h3 (by decide)⟩

/-! ## C4 -/

/-- Whenever `Register` succeeds, whatever its surroundings did, it appended the
row of the returned user, and neither that email nor that identifier was in the
store before. -/
theorem Register_ok_inv (s : UserService) (env : RegisterEnv) (db db2 : DB)
    (req : RegisterRequest) (resp : AuthResponse)
    (h : s.Register env db req = (.ok resp, db2)) :
    db2 = db ++ [rowOfUser resp.User] ∧
    (∀ x ∈ db, x.email ≠ req.Email) ∧ (∀ x ∈ db, x.id ≠ resp.User.ID.String) ∧
    resp.User.ID = env.newID ∧ resp.User.Name = req.Name ∧ resp.User.Email = req.Email ∧
    resp.User.CreatedAt = env.now ∧ resp.User.UpdatedAt = env.now := by
  unfold UserService.Register at h
  cases hg : bcryptGenerateFromPassword env.salt req.Password with
  | error e => simp [hg] at h
  | ok hash =>
    simp only [hg] at h
    rcases Create_cases env.dbFault db
      { ID := env.newID, Name := req.Name, Email := req.Email, PasswordHash := hash,
        CreatedAt := env.now, UpdatedAt := env.now } with hc | hc
    · obtain ⟨h1, h2⟩ := hc
      revert h h1
      cases UserRepository.Create env.dbFault db
        { ID := env.newID, Name := req.Name, Email := req.Email, PasswordHash := hash,
          CreatedAt := env.now, UpdatedAt := env.now } with
      | mk e d =>
        cases e with
        | none => intro _ h1; simp at h1
        | some e => intro h _; simp at h
    · obtain ⟨h1, h2, h3, h4⟩ := hc
      revert h h1 h2
      cases UserRepository.Create env.dbFault db
        { ID := env.newID, Name := req.Name, Email := req.Email, PasswordHash := hash,
          CreatedAt := env.now, UpdatedAt := env.now } with
      | mk e d =>
        intro h h1 h2
        simp only at h1 h2
        subst h1 h2
        simp only [UserService.issueToken, Prod.mk.injEq, Except.ok.injEq] at h
        obtain ⟨hr, hd⟩ := h
        subst hr hd
        exact ⟨rfl, h3, h4, rfl, rfl, rfl, rfl, rfl⟩

/-- C4: for every registration request whose email no row has, with bcrypt
producing a hash, `uuid.New()` producing an identifier no row has and the
database answering, `Register` succeeds, the store afterwards is the old store
with exactly one row appended, and the response carries a non-empty token and a
user with the request's name and email, equal created and updated timestamps,
and an identifier different from every identifier stored before. -/
theorem C4_Register_success (s : UserService) (env : RegisterEnv) (db : DB)
    (req : RegisterRequest) (salt : String)
    (hemail : ∀ x ∈ db, x.email ≠ req.Email)
    (hsalt : env.salt = .ok salt)
    (hid : ∀ x ∈ db, x.id ≠ env.newID.String)
    (hdb : env.dbFault = none) :
    ∃ resp db2, s.Register env db req = (.ok resp, db2) ∧
      db2 = db ++ [rowOfUser resp.User] ∧ db2.length = db.length + 1 ∧
      resp.Token.isEmpty = false ∧
      resp.User.Name = req.Name ∧ resp.User.Email = req.Email ∧
      resp.User.CreatedAt = resp.User.UpdatedAt ∧
      (∀ x ∈ db, x.id ≠ resp.User.ID.String) := by
  obtain ⟨t, ht, -⟩ := issueToken_ok s
    { ID := env.newID, Name := req.Name, Email := req.Email,
      PasswordHash := .bcrypt salt (bcryptKey req.Password), CreatedAt := env.now,
      UpdatedAt := env.now }
    env.iatNow env.expNow
  have hc := Create_fresh db
    { ID := env.newID, Name := req.Name, Email := req.Email,
      PasswordHash := .bcrypt salt (bcryptKey req.Password), CreatedAt := env.now,
      UpdatedAt := env.now }
    hemail hid
  have hreg : s.Register env db req =
      (.ok ⟨.compact t,
          { ID := env.newID, Name := req.Name, Email := req.Email,
            PasswordHash := .bcrypt salt (bcryptKey req.Password), CreatedAt := env.now,
            UpdatedAt := env.now }⟩,
        db ++ [rowOfUser
          { ID := env.newID, Name := req.Name, Email := req.Email,
            PasswordHash := .bcrypt salt (bcryptKey req.Password), CreatedAt := env.now,
            UpdatedAt := env.now }]) := by
    simp only [UserService.Register, hsalt, hdb, bcryptGenerateFromPassword, hc, ht]
  exact ⟨_, _, hreg, rfl, by simp, rfl, rfl, rfl, rfl, hid⟩

/-- Witness for C4: the registration of the tests on the empty store and a
second registration, with another email, on the store that holds Alice. -/
theorem C4_Register_success_witness :
    ∃ resp db2, exService.Register
        ⟨.ok "salt", 1700000001500000000, ⟨2, by norm_num⟩, none,
          1700000001500000000, 1700000001500000000⟩
        exStore ⟨"Bob", "bob@example.com", "hunter2hunter2"⟩ = (.ok resp, db2) ∧
      db2 = exStore ++ [rowOfUser resp.User] ∧ db2.length = exStore.length + 1 ∧
      resp.Token.isEmpty = false ∧
      resp.User.Name = "Bob" ∧ resp.User.Email = "bob@example.com" ∧
      resp.User.CreatedAt = resp.User.UpdatedAt ∧
      (∀ x ∈ exStore, x.id ≠ resp.User.ID.String) :=
  C4_Register_success exService
    ⟨.ok "salt", 1700000001500000000, ⟨2, by norm_num⟩, none,
      1700000001500000000, 1700000001500000000⟩
    exStore ⟨"Bob", "bob@example.com", "hunter2hunter2"⟩ "salt"
    (by decide) rfl (by decide) rfl

/-! ## C5 -/

theorem GetByID_some (db : DB) (id : UUID) (r : Row)
    (h : db.find? (fun x => decide (x.id = id.String)) = some r) :
    UserRepository.GetByID none db id = .ok (userOfRow r) ∧ (userOfRow r).ID = id := by
  have hid : r.id = id.String := by
    have := List.find?_some h
    simpa using this
  constructor
  · simp [UserRepository.GetByID, queryRow, scanOne, rowScan, h]
  · simp [userOfRow, hid, uuidParse_String]

theorem GetByID_none (db : DB) (id : UUID) (h : ∀ x ∈ db, x.id ≠ id.String) :
    UserRepository.GetByID none db id = .error .ErrNotFound := by
  have hf : db.find? (fun x => decide (x.id = id.String)) = none := by
    simpa [List.find?_eq_none] using h
  simp [UserRepository.GetByID, queryRow, scanOne, rowScan, hf, Error.Is]

theorem Update_ok (db : DB) (u : User) (hex : ∃ x ∈ db, x.id = u.ID.String)
    (hfree : ∀ x ∈ db, x.email = u.Email → x.id = u.ID.String) :
    UserRepository.Update none db u
      = (none, db.map (fun x =>
          if x.id = u.ID.String then
            { x with name := u.Name, email := u.Email, updated_at := Time.Format u.UpdatedAt }
          else x)) := by
  have hconf : ¬ ∃ x ∈ db, x.id ≠ u.ID.String ∧ x.email = u.Email := by
    rintro ⟨x, hx, hne, he⟩
    exact hne (hfree x hx he)
  have hlen : (db.filter (fun x => decide (x.id = u.ID.String))).length ≠ 0 := by
    obtain ⟨x, hx, hxid⟩ := hex
    have : x ∈ db.filter (fun x => decide (x.id = u.ID.String)) := by
      simp [List.mem_filter, hx, hxid]
    intro h0
    rw [List.length_eq_zero] at h0
    rw [h0] at this
    simp at this
  have hconf2 : ¬ ((∃ x ∈ db, x.id = u.ID.String) ∧
      ∃ x ∈ db, ¬ x.id = u.ID.String ∧ x.email = u.Email) := fun h => hconf h.2
  simp only [UserRepository.Update, execUpdate, List.any_eq_true, decide_eq_true_eq,
    Bool.decide_and, Bool.and_eq_true, ne_eq, decide_not, Bool.not_eq_true',
    decide_eq_false_iff_not, hconf2, if_false, hlen]

theorem Update_conflict (db : DB) (u : User) (hex : ∃ x ∈ db, x.id = u.ID.String)
    (hheld : ∃ x ∈ db, x.id ≠ u.ID.String ∧ x.email = u.Email) :
    UserRepository.Update none db u = (some .ErrEmailTaken, db) := by
  have hc : (∃ x ∈ db, x.id = u.ID.String) ∧
      ∃ x ∈ db, ¬ x.id = u.ID.String ∧ x.email = u.Email := ⟨hex, hheld⟩
  simp only [UserRepository.Update, execUpdate, List.any_eq_true, decide_eq_true_eq,
    Bool.decide_and, Bool.and_eq_true, ne_eq, decide_not, Bool.not_eq_true',
    decide_eq_false_iff_not, hc, and_self, if_true, isUniqueViolation_email]

theorem find_map_update (db : DB) (idText : String) (f : Row → Row)
    (hf : ∀ x, (f x).id = x.id) :
    (db.map (fun x => if x.id = idText then f x else x)).find?
        (fun x => decide (x.id = idText))
      = (db.find? (fun x => decide (x.id = idText))).map f := by
  induction db with
  | nil => rfl
  | cons a l ih =>
    by_cases ha : a.id = idText
    · simp [List.find?, ha, hf]
    · simp [List.find?, ha, ih]

theorem second_le (sec : Int) (now : Int) (h : sec * nanosPerSecond ≤ now) :
    sec ≤ now / nanosPerSecond := by
  unfold nanosPerSecond at *
  omega

/-- C5: the store satisfies its schema and holds the row `r` under the identifier
`id`; the request has a non-empty name and an empty email; the clock reading `now`
is not before the stored updated timestamp; the database answers.  Then
`UpdateUser` succeeds; the returned record `u` and the record `p` read back from
the store afterwards have the requested name, the email, identifier, credential
hash and created timestamp of `r`, and an updated timestamp not before the one
of `r`; every other row of the store is as it was. -/
theorem C5_UpdateUser_name_only (s : UserService) (db : DB) (id : UUID) (r : Row)
    (req : UpdateUserRequest) (now : Time)
    (hvalid : db.Valid)
    (hfind : db.find? (fun x => decide (x.id = id.String)) = some r)
    (hname : req.Name ≠ "") (hemail : req.Email = "")
    (hclock : timeParse r.updated_at ≤ now) :
    ∃ u db2, s.UpdateUser ⟨none, now, none⟩ db id req = (.ok u, db2) ∧
      u.Name = req.Name ∧ u.Email = r.email ∧ u.ID = id ∧
      u.PasswordHash = r.password_hash ∧ u.CreatedAt = timeParse r.created_at ∧
      timeParse r.updated_at ≤ u.UpdatedAt ∧
      (∃ p, UserRepository.GetByID none db2 id = .ok p ∧
        p.Name = req.Name ∧ p.Email = r.email ∧ p.ID = id ∧
        p.PasswordHash = r.password_hash ∧ p.CreatedAt = timeParse r.created_at ∧
        timeParse r.updated_at ≤ p.UpdatedAt) ∧
      db2.length = db.length ∧ (∀ x ∈ db, x.id ≠ id.String → x ∈ db2) := by
  obtain ⟨hget, hgid⟩ := GetByID_some db id r hfind
  have hrid : r.id = id.String := by
    have := List.find?_some hfind
    simpa using this
  have hrmem : r ∈ db := List.mem_of_find?_eq_some hfind
  have hfree : ∀ x ∈ db, x.email = r.email → x.id = id.String := by
    intro x hx he
    have := List.inj_on_of_nodup_map hvalid.2 hx hrmem he
    rw [this, hrid]
  have hupd := Update_ok db
    { ID := id, Name := req.Name, Email := r.email, PasswordHash := r.password_hash,
      CreatedAt := timeParse r.created_at, UpdatedAt := now }
    ⟨r, hrmem, hrid⟩ hfree
  have hrun : s.UpdateUser ⟨none, now, none⟩ db id req =
      (.ok { ID := id, Name := req.Name, Email := r.email, PasswordHash := r.password_hash,
             CreatedAt := timeParse r.created_at, UpdatedAt := now },
       db.map (fun x =>
          if x.id = id.String then
            { x with name := req.Name, email := r.email, updated_at := Time.Format now }
          else x)) := by
    have hu : userOfRow r =
        ⟨id, r.name, r.email, r.password_hash, timeParse r.created_at,
          timeParse r.updated_at⟩ := by
      have := hgid
      simp only [userOfRow] at this ⊢
      rw [this]
    simp only [UserService.UpdateUser, hget, hu, hname, hemail, ne_eq, not_false_eq_true,
      not_true_eq_false, if_true, if_false, hupd]
  have hback := find_map_update db id.String
    (fun x => { x with name := req.Name, email := r.email, updated_at := Time.Format now })
    (fun _ => rfl)
  rw [hfind] at hback
  obtain ⟨hget2, hgid2⟩ := GetByID_some _ id _ hback
  refine ⟨_, _, hrun, rfl, rfl, rfl, rfl, rfl, hclock, ⟨_, hget2, rfl, rfl, hgid2, rfl, rfl, ?_⟩,
    by simp, ?_⟩
  · simp only [userOfRow, timeParse, Time.Format] at hclock ⊢
    have := second_le _ _ hclock
    exact Int.mul_le_mul_of_nonneg_right this (by decide)
  · intro x hx hne
    rw [List.mem_map]
    exact ⟨x, hx, by simp [hne]⟩

/-- Witness for C5: the update of the tests, Alice renamed to Alice Smith nine and
a half seconds after her registration. -/
theorem C5_UpdateUser_name_only_witness :
    ∃ u db2, exService.UpdateUser ⟨none, 1700000009500000000, none⟩ exStore exAlice.ID
        ⟨"Alice Smith", ""⟩ = (.ok u, db2) ∧
      u.Name = "Alice Smith" ∧ u.Email = (rowOfUser exAlice).email ∧ u.ID = exAlice.ID ∧
      u.PasswordHash = (rowOfUser exAlice).password_hash ∧
      u.CreatedAt = timeParse (rowOfUser exAlice).created_at ∧
      timeParse (rowOfUser exAlice).updated_at ≤ u.UpdatedAt ∧
      (∃ p, UserRepository.GetByID none db2 exAlice.ID = .ok p ∧
        p.Name = "Alice Smith" ∧ p.Email = (rowOfUser exAlice).email ∧ p.ID = exAlice.ID ∧
        p.PasswordHash = (rowOfUser exAlice).password_hash ∧
        p.CreatedAt = timeParse (rowOfUser exAlice).created_at ∧
        timeParse (rowOfUser exAlice).updated_at ≤ p.UpdatedAt) ∧
      db2.length = exStore.length ∧ (∀ x ∈ exStore, x.id ≠ exAlice.ID.String → x ∈ db2) :=
  C5_UpdateUser_name_only exService exStore exAlice.ID (rowOfUser exAlice)
    ⟨"Alice Smith", ""⟩ 1700000009500000000 (by decide) (by decide) (by decide) rfl
    (by decide)

/-! ## C6 -/

theorem mapM_scanRow (rows : List Row) : rows.mapM scanRow = .ok (rows.map userOfRow) := by
  induction rows with
  | nil => rfl
  | cons a l ih =>
    rw [List.mapM_cons, ih]
    rfl

theorem List_ok (db : DB) (emailFilter : String) (limit offset : Int) :
    UserRepository.List none db emailFilter limit offset
      = .ok ((sqlLimitOffset limit offset
          ((db.filter (fun x =>
              likeMatch (sqlLower ("%" ++ emailFilter ++ "%").data) (sqlLower x.email.data))).insertionSort
            (fun a b => b.created_at.sec ≤ a.created_at.sec))).map userOfRow) := by
  simp only [UserRepository.List, queryList, mapM_scanRow]

theorem sqlLimitOffset_length (limit offset : Int) (rows : List Row) (h : 0 ≤ limit) :
    ((sqlLimitOffset limit offset rows).length : Int) ≤ limit := by
  have hn : ¬ limit < 0 := not_lt.mpr h
  simp only [sqlLimitOffset, hn, if_false, List.length_take]
  have : ((min limit.toNat (rows.drop offset.toNat).length : Nat) : Int) ≤ (limit.toNat : Int) :=
    Int.ofNat_le.mpr (Nat.min_le_left _ _)
  rw [Int.toNat_of_nonneg h] at this
  exact this

/-- C6: `ListUsers` is the store's `List` called with the caller's email filter and
offset and with the caller's limit when that lies between 1 and 100, with 20
otherwise; whatever the database does, a successful call returns at most that
many records.  Limits 0, -5 and 500 become 20, limit 50 stays 50. -/
theorem C6_ListUsers_limit (s : UserService) (fault : Option String) (db : DB)
    (q : ListUsersQuery) :
    s.ListUsers fault db q
      = UserRepository.List fault db q.Email
          (if 1 ≤ q.Limit ∧ q.Limit ≤ 100 then q.Limit else 20) q.Offset ∧
    (∀ users, s.ListUsers fault db q = .ok users →
      (users.length : Int) ≤ (if 1 ≤ q.Limit ∧ q.Limit ≤ 100 then q.Limit else 20)) ∧
    s.ListUsers fault db ⟨q.Email, 0, q.Offset⟩ = UserRepository.List fault db q.Email 20 q.Offset ∧
    s.ListUsers fault db ⟨q.Email, -5, q.Offset⟩ = UserRepository.List fault db q.Email 20 q.Offset ∧
    s.ListUsers fault db ⟨q.Email, 500, q.Offset⟩ = UserRepository.List fault db q.Email 20 q.Offset ∧
    s.ListUsers fault db ⟨q.Email, 50, q.Offset⟩ = UserRepository.List fault db q.Email 50 q.Offset := by
  have key : ∀ q : ListUsersQuery, s.ListUsers fault db q
      = UserRepository.List fault db q.Email
          (if 1 ≤ q.Limit ∧ q.Limit ≤ 100 then q.Limit else 20) q.Offset := by
    intro q
    unfold UserService.ListUsers
    by_cases h : q.Limit ≤ 0 ∨ q.Limit > 100
    · have h2 : ¬ (1 ≤ q.Limit ∧ q.Limit ≤ 100) := by omega
      simp only [h, h2, if_true, if_false]
    · have h2 : 1 ≤ q.Limit ∧ q.Limit ≤ 100 := by omega
      simp only [h, h2, if_true, if_false, and_self]
  refine ⟨key q, ?_, ?_, ?_, ?_, ?_⟩
  · intro users hu
    rw [key q] at hu
    have hpos : (0 : Int) ≤ (if 1 ≤ q.Limit ∧ q.Limit ≤ 100 then q.Limit else 20) := by
      split <;> omega
    cases fault with
    | some msg => simp [UserRepository.List, queryList] at hu
    | none =>
      rw [List_ok] at hu
      injection hu with hu
      rw [← hu, List.length_map]
      exact sqlLimitOffset_length _ _ _ hpos
  · rw [key]; rfl
  · rw [key]; rfl
  · rw [key]; rfl
  · rw [key]; rfl

/-- Witness for C6: on the store that holds Alice a query with limit 0 is run with
limit 20 and returns one record. -/
theorem C6_ListUsers_limit_witness :
    exService.ListUsers none exStore ⟨"", 0, 0⟩ = UserRepository.List none exStore "" 20 0 ∧
    exService.ListUsers none exStore ⟨"", 0, 0⟩ = .ok [userOfRow (rowOfUser exAlice)] ∧
    (([userOfRow (rowOfUser exAlice)] : List User).length : Int) ≤ 20 :=
  ⟨(C6_ListUsers_limit exService none exStore ⟨"", 0, 0⟩).1, rfl,
   (C6_ListUsers_limit exService none exStore ⟨"", 0, 0⟩).2.1 _ rfl⟩

/-! ## C7 -/

theorem toLower_upper (k : Fin 26) :
    (Char.ofNat (65 + k.val)).toLower.toLower = (Char.ofNat (65 + k.val)).toLower ∧
    (Char.ofNat (65 + k.val)).toLower ≠ '%' ∧ (Char.ofNat (65 + k.val)).toLower ≠ '_' ∧
    Char.ofNat (65 + k.val) ≠ '%' ∧ Char.ofNat (65 + k.val) ≠ '_' := by
  revert k
  decide

theorem toLower_cases (c : Char) :
    c.toLower = c ∨
    (c.toLower.toLower = c.toLower ∧ c.toLower ≠ '%' ∧ c.toLower ≠ '_' ∧ c ≠ '%' ∧ c ≠ '_') := by
  by_cases h : c.toNat ≥ 65 ∧ c.toNat ≤ 90
  · right
    have hk : c.toNat - 65 < 26 := by omega
    have hc : Char.ofNat (65 + (c.toNat - 65)) = c := by
      have : 65 + (c.toNat - 65) = c.toNat := by omega
      rw [this, Char.ofNat_toNat]
    have := toLower_upper ⟨c.toNat - 65, hk⟩
    simp only [hc] at this
    exact this
  · left
    simp only [Char.toLower, h, if_false]

theorem toLower_idem (c : Char) : c.toLower.toLower = c.toLower := by
  rcases toLower_cases c with h | h
  · rw [h, h]
  · exact h.1

theorem toLower_eq_percent (c : Char) : c.toLower = '%' ↔ c = '%' := by
  rcases toLower_cases c with h | h
  · rw [h]
  · exact ⟨fun e => absurd e h.2.1, fun e => absurd e h.2.2.2.1⟩

theorem toLower_eq_underscore (c : Char) : c.toLower = '_' ↔ c = '_' := by
  rcases toLower_cases c with h | h
  · rw [h]
  · exact ⟨fun e => absurd e h.2.2.1, fun e => absurd e h.2.2.2.2⟩

theorem sqlLower_idem (s : List Char) : sqlLower (sqlLower s) = sqlLower s := by
  simp [sqlLower, toLower_idem]

theorem tails_any_isEmpty (s : List Char) : s.tails.any List.isEmpty = true := by
  induction s with
  | nil => rfl
  | cons a l ih => simp [List.tails, ih]

/-- A pattern without wildcards followed by `%` matches the texts that start
with the pattern, letters compared without regard to case. -/
theorem likeMatch_literal (q : List Char) (hp : '%' ∉ q) (hu : '_' ∉ q) :
    ∀ s : List Char, likeMatch (q ++ ['%']) s = (sqlLower q).isPrefixOf (sqlLower s) := by
  induction q with
  | nil =>
    intro s
    simp only [List.nil_append, likeMatch, if_true, sqlLower, List.map_nil, List.isPrefixOf]
    exact tails_any_isEmpty s
  | cons a q ih =>
    intro s
    have ha1 : a ≠ '%' := fun e => hp (by simp [e])
    have ha2 : a ≠ '_' := fun e => hu (by simp [e])
    have hp2 : '%' ∉ q := fun e => hp (List.mem_cons_of_mem _ e)
    have hu2 : '_' ∉ q := fun e => hu (List.mem_cons_of_mem _ e)
    cases s with
    | nil => simp [likeMatch, ha1, sqlLower, List.isPrefixOf]
    | cons c cs =>
      have hstep : likeMatch (a :: q ++ ['%']) (c :: cs)
          = (decide (a.toLower = c.toLower) && likeMatch (q ++ ['%']) cs) := by
        simp only [List.cons_append, likeMatch, ha1, ha2, if_false]
        rfl
      rw [hstep, ih hp2 hu2 cs]
      by_cases hc : a.toLower = c.toLower <;> simp [hc, sqlLower, List.isPrefixOf]

theorem sqlLower_cons (c : Char) (cs : List Char) :
    sqlLower (c :: cs) = c.toLower :: sqlLower cs := rfl

theorem tails_any_eq_containsChars (sub : List Char) :
    ∀ t : List Char, t.tails.any (fun s => sub.isPrefixOf (sqlLower s))
      = containsChars sub (sqlLower t) := by
  intro t
  induction t with
  | nil =>
    cases sub <;> simp [List.tails, containsChars, sqlLower, List.isPrefixOf]
  | cons c cs ih =>
    simp only [List.tails, List.any_cons, ih, sqlLower_cons, containsChars]
    rfl

theorem like_filter_literal (filter email : String)
    (hp : '%' ∉ filter.data) (hu : '_' ∉ filter.data) :
    likeMatch (sqlLower ("%" ++ filter ++ "%").data) (sqlLower email.data)
      = specEmailContains email filter := by
  have hdata : ("%" ++ filter ++ "%").data = '%' :: (filter.data ++ ['%']) := by
    simp [String.data_append]
  have hp2 : '%' ∉ sqlLower filter.data := by
    simp only [sqlLower, List.mem_map, not_exists, not_and]
    intro c hc e
    rw [toLower_eq_percent] at e
    exact hp (e ▸ hc)
  have hu2 : '_' ∉ sqlLower filter.data := by
    simp only [sqlLower, List.mem_map, not_exists, not_and]
    intro c hc e
    rw [toLower_eq_underscore] at e
    exact hu (e ▸ hc)
  have hlow : sqlLower ('%' :: (filter.data ++ ['%'])) = '%' :: (sqlLower filter.data ++ ['%']) := by
    simp [sqlLower]
  rw [hdata, hlow]
  simp only [likeMatch, if_true]
  have hfun : (fun rest => likeMatch (sqlLower filter.data ++ ['%']) rest)
      = fun rest => (sqlLower filter.data).isPrefixOf (sqlLower rest) := by
    funext rest
    rw [likeMatch_literal _ hp2 hu2, sqlLower_idem]
  rw [hfun, tails_any_eq_containsChars, sqlLower_idem]
  rfl

theorem like_filter_empty (email : String) :
    likeMatch (sqlLower ("%" ++ "" ++ "%").data) (sqlLower email.data) = true := by
  have h := like_filter_literal "" email (by simp) (by simp)
  rw [h]
  simp only [specEmailContains, sqlLower, List.map_nil]
  show containsChars [] _ = true
  generalize List.map Char.toLower email.data = t
  cases t <;> simp [containsChars, List.isPrefixOf]

theorem sqlLimitOffset_sublist (limit offset : Int) (rows : List Row) :
    (sqlLimitOffset limit offset rows).Sublist rows := by
  unfold sqlLimitOffset
  by_cases h : limit < 0
  · simp only [h, if_true]
    exact List.drop_sublist _ _
  · simp only [h, if_false]
    exact (List.take_sublist _ _).trans (List.drop_sublist _ _)

/-- C7, the code at the failing input: the store holds Alice only, whose email
`alice@example.com` does not contain the text `a_i`; `List` with the filter `a_i`
returns her nevertheless, since `_` stands for the `l` of `ali`.  The claim, like
the comment on `List` in the source, asks for the users whose email contains the
filter. -/
theorem C7_List_wildcard_filter :
    specEmailContains "alice@example.com" "a_i" = false ∧
    (userOfRow (rowOfUser exAlice)).Email = "alice@example.com" ∧
    UserRepository.List none exStore "a_i" 10 0 = .ok [userOfRow (rowOfUser exAlice)] :=
  ⟨by decide, by decide, by rfl⟩

/-- What `List` returns, the database answering: the users of the rows
`sqlLimitOffset limit offset sorted`, where `sorted` holds exactly the rows whose
lower-cased email matches the SQL `LIKE` pattern `%filter%` (lower-cased; in it `_`
stands for any one character and `%` for any run of characters), ordered by
created timestamp descending; the returned users are in that order too; for a
limit and offset that are not negative the cut is `limit` rows from position
`offset`; when the filter contains neither `_` nor `%` the rows matched are
exactly those whose email contains the filter as a literal substring without
regard to ASCII case, and all rows when the filter is empty. -/
theorem C7_List_like (db : DB) (filter : String) (limit offset : Int) :
    ∃ sorted : List Row,
      UserRepository.List none db filter limit offset
        = .ok ((sqlLimitOffset limit offset sorted).map userOfRow) ∧
      sorted.Perm (db.filter (fun x =>
        likeMatch (sqlLower ("%" ++ filter ++ "%").data) (sqlLower x.email.data))) ∧
      sorted.Sorted (fun a b => b.created_at.sec ≤ a.created_at.sec) ∧
      ((sqlLimitOffset limit offset sorted).map userOfRow).Sorted
        (fun a b => b.CreatedAt ≤ a.CreatedAt) ∧
      (0 ≤ limit → 0 ≤ offset →
        sqlLimitOffset limit offset sorted = (sorted.drop offset.toNat).take limit.toNat) ∧
      ('%' ∉ filter.data → '_' ∉ filter.data →
        sorted.Perm (db.filter (fun x => specEmailContains x.email filter))) ∧
      (filter = "" → sorted.Perm db) := by
  have hperm := List.perm_insertionSort (fun a b : Row => b.created_at.sec ≤ a.created_at.sec)
    (db.filter (fun x =>
      likeMatch (sqlLower ("%" ++ filter ++ "%").data) (sqlLower x.email.data)))
  have hsorted := @List.sorted_insertionSort Row
    (fun a b => b.created_at.sec ≤ a.created_at.sec) _
    ⟨fun a b => le_total b.created_at.sec a.created_at.sec⟩
    ⟨fun _ _ _ h1 h2 => le_trans h2 h1⟩
    (db.filter (fun x =>
      likeMatch (sqlLower ("%" ++ filter ++ "%").data) (sqlLower x.email.data)))
  refine ⟨_, List_ok db filter limit offset, hperm, hsorted, ?_, ?_, ?_, ?_⟩
  · have hsub := List.Pairwise.sublist (sqlLimitOffset_sublist limit offset _) hsorted
    refine List.Pairwise.map userOfRow ?_ hsub
    intro a b hab
    simp only [userOfRow, timeParse]
    exact Int.mul_le_mul_of_nonneg_right hab (by decide)
  · intro hl _
    have hn : ¬ limit < 0 := not_lt.mpr hl
    simp only [sqlLimitOffset, hn, if_false]
  · intro hp hu
    have hfun : (fun x : Row =>
        likeMatch (sqlLower ("%" ++ filter ++ "%").data) (sqlLower x.email.data))
        = fun x => specEmailContains x.email filter := by
      funext x
      exact like_filter_literal filter x.email hp hu
    rw [← hfun]
    exact hperm
  · intro he
    subst he
    have hall : db.filter (fun x =>
        likeMatch (sqlLower ("%" ++ "" ++ "%").data) (sqlLower x.email.data)) = db := by
      rw [List.filter_eq_self]
      intro x _
      exact like_filter_empty x.email
    exact hperm.trans (by rw [hall])

/-- The store that holds Alice, the filter `ALICE` without wildcards, limit 10 and
offset 0: an instance of `C7_List_like`. -/
theorem C7_List_like_witness :
    ∃ sorted : List Row,
      UserRepository.List none exStore "ALICE" 10 0
        = .ok ((sqlLimitOffset 10 0 sorted).map userOfRow) ∧
      sqlLimitOffset 10 0 sorted = (sorted.drop 0).take 10 ∧
      sorted.Perm (exStore.filter (fun x => specEmailContains x.email "ALICE")) := by
  obtain ⟨sorted, h1, -, -, -, h5, h6, -⟩ := C7_List_like exStore "ALICE" 10 0
  exact ⟨sorted, h1, h5 (by decide) (by decide), h6 (by decide) (by decide)⟩

/-! ## C8 -/

theorem Inv_nil : DB.Inv [] := by
  refine ⟨⟨?_, ?_⟩, ?_⟩ <;> simp

theorem Inv_append (db : DB) (u : User) (h : db.Inv)
    (he : ∀ x ∈ db, x.email ≠ u.Email) (hi : ∀ x ∈ db, x.id ≠ u.ID.String) :
    DB.Inv (db ++ [rowOfUser u]) := by
  obtain ⟨⟨h1, h2⟩, h3⟩ := h
  refine ⟨⟨?_, ?_⟩, ?_⟩
  · rw [List.map_append, List.nodup_append]
    refine ⟨h1, by simp, ?_⟩
    simp only [List.map_cons, List.map_nil, List.disjoint_singleton, List.mem_map, not_exists,
      not_and]
    intro x hx
    exact hi x hx
  · rw [List.map_append, List.nodup_append]
    refine ⟨h2, by simp, ?_⟩
    simp only [List.map_cons, List.map_nil, List.disjoint_singleton, List.mem_map, not_exists,
      not_and]
    intro x hx
    exact he x hx
  · intro x hx
    rw [List.mem_append] at hx
    rcases hx with hx | hx
    · exact h3 x hx
    · simp only [List.mem_singleton] at hx
      exact ⟨u.ID, by rw [hx]; rfl⟩

theorem Create_Inv (fault : Option String) (db : DB) (u : User) (h : db.Inv) :
    DB.Inv (UserRepository.Create fault db u).2 := by
  rcases Create_cases fault db u with hc | hc
  · rw [hc.2]; exact h
  · rw [hc.2.1]; exact Inv_append db u h hc.2.2.1 hc.2.2.2

theorem Register_Inv (s : UserService) (env : RegisterEnv) (db : DB) (req : RegisterRequest)
    (h : db.Inv) : DB.Inv (s.Register env db req).2 := by
  unfold UserService.Register
  cases hg : bcryptGenerateFromPassword env.salt req.Password with
  | error e => exact h
  | ok hash =>
    simp only []
    have hc := Create_Inv env.dbFault db
      { ID := env.newID, Name := req.Name, Email := req.Email, PasswordHash := hash,
        CreatedAt := env.now, UpdatedAt := env.now } h
    revert hc
    cases UserRepository.Create env.dbFault db
      { ID := env.newID, Name := req.Name, Email := req.Email, PasswordHash := hash,
        CreatedAt := env.now, UpdatedAt := env.now } with
    | mk e d =>
      intro hc
      cases e with
      | some e => exact hc
      | none => exact hc

/-- The rewriting of `execUpdate` keeps the invariant when the new email is held
by no row with another identifier. -/
theorem Inv_update (db : DB) (idText name email : String) (upd : RFC3339) (h : db.Inv)
    (hfree : ∀ x ∈ db, x.id ≠ idText → x.email ≠ email) :
    DB.Inv (db.map (fun x =>
      if x.id = idText then { x with name := name, email := email, updated_at := upd }
      else x)) := by
  obtain ⟨⟨h1, h2⟩, h3⟩ := h
  have hid : ∀ x : Row,
      (if x.id = idText then { x with name := name, email := email, updated_at := upd }
       else x).id = x.id := by
    intro x
    split <;> rfl
  refine ⟨⟨?_, ?_⟩, ?_⟩
  · rw [List.map_map]
    have : (Row.id ∘ fun x : Row =>
        if x.id = idText then { x with name := name, email := email, updated_at := upd }
        else x) = Row.id := by
      funext x
      exact hid x
    rw [this]
    exact h1
  · rw [List.map_map]
    have hp1 : db.Pairwise (fun a b => a.id ≠ b.id) := List.pairwise_map.mp h1
    have hp2 : db.Pairwise (fun a b => a.email ≠ b.email) := List.pairwise_map.mp h2
    have hp := hp1.and hp2
    refine List.pairwise_map.mpr (hp.imp_of_mem ?_)
    intro a b ha hb hab
    obtain ⟨hne, hem⟩ := hab
    simp only [Function.comp]
    by_cases ha1 : a.id = idText
    · have hb1 : b.id ≠ idText := fun e => hne (ha1.trans e.symm)
      simp only [ha1, hb1, if_true, if_false]
      exact fun e => hfree b hb hb1 e.symm
    · by_cases hb1 : b.id = idText
      · simp only [ha1, hb1, if_true, if_false]
        exact hfree a ha ha1
      · simp only [ha1, hb1, if_false]
        exact hem
  · intro x hx
    rw [List.mem_map] at hx
    obtain ⟨y, hy, rfl⟩ := hx
    rw [hid y]
    exact h3 y hy

theorem Update_Inv (fault : Option String) (db : DB) (u : User) (h : db.Inv) :
    DB.Inv (UserRepository.Update fault db u).2 := by
  unfold UserRepository.Update execUpdate
  cases fault with
  | some msg =>
    simp only []
    split <;> exact h
  | none =>
    simp only []
    by_cases hc : (db.any (fun x => decide (x.id = u.ID.String)) = true ∧
        db.any (fun x => decide (x.id ≠ u.ID.String ∧ x.email = u.Email)) = true)
    · simp only [hc, and_self, if_true]
      split <;> exact h
    · simp only [hc, if_false]
      by_cases hex : db.any (fun x => decide (x.id = u.ID.String)) = true
      · have hno : ¬ db.any (fun x => decide (x.id ≠ u.ID.String ∧ x.email = u.Email)) = true :=
          fun e => hc ⟨hex, e⟩
        have hfree : ∀ x ∈ db, x.id ≠ u.ID.String → x.email ≠ u.Email := by
          intro x hx hne he
          apply hno
          rw [List.any_eq_true]
          exact ⟨x, hx, by simp [hne, he]⟩
        have hinv := Inv_update db u.ID.String u.Name u.Email (Time.Format u.UpdatedAt) h hfree
        split <;> exact hinv
      · have hsame : db.map (fun x =>
            if x.id = u.ID.String then
              { x with name := u.Name, email := u.Email, updated_at := Time.Format u.UpdatedAt }
            else x) = db := by
          have hall : ∀ x ∈ db, x.id ≠ u.ID.String := by
            intro x hx e
            apply hex
            rw [List.any_eq_true]
            exact ⟨x, hx, by simp [e]⟩
          conv_rhs => rw [← List.map_id db]
          apply List.map_congr_left
          intro x hx
          simp [hall x hx]
        rw [hsame]
        split <;> exact h

theorem UpdateUser_Inv (s : UserService) (env : UpdateEnv) (db : DB) (id : UUID)
    (req : UpdateUserRequest) (h : db.Inv) : DB.Inv (s.UpdateUser env db id req).2 := by
  unfold UserService.UpdateUser
  cases UserRepository.GetByID env.getFault db id with
  | error e => exact h
  | ok u0 =>
    simp only []
    generalize hu : ({ (if req.Email ≠ "" then
        { (if req.Name ≠ "" then { u0 with Name := req.Name } else u0) with Email := req.Email }
      else (if req.Name ≠ "" then { u0 with Name := req.Name } else u0)) with
      UpdatedAt := env.now } : User) = u
    have hc := Update_Inv env.updateFault db u h
    revert hc
    cases UserRepository.Update env.updateFault db u with
    | mk e d =>
      intro hc
      cases e with
      | some e => exact hc
      | none => exact hc

theorem run_Inv (s : UserService) (calls : List Call) :
    ∀ db : DB, db.Inv → DB.Inv (s.run db calls) := by
  induction calls with
  | nil => intro db h; exact h
  | cons c cs ih =>
    intro db h
    show DB.Inv (s.run (s.step db c) cs)
    apply ih
    cases c with
    | register env req => exact Register_Inv s env db req h
    | updateUser env id req => exact UpdateUser_Inv s env db id req h

theorem Inv_ids_nodup (db : DB) (h : db.Inv) :
    (db.map (fun x => (userOfRow x).ID)).Nodup := by
  obtain ⟨⟨h1, _⟩, h3⟩ := h
  have hmap : db.map (fun x => (userOfRow x).ID)
      = (db.map Row.id).map (fun t => (uuidParse t).getD UUID.Nil) := by
    rw [List.map_map]
    rfl
  rw [hmap]
  refine List.Nodup.map_on ?_ h1
  intro a ha b hb hab
  rw [List.mem_map] at ha hb
  obtain ⟨x, hx, rfl⟩ := ha
  obtain ⟨y, hy, rfl⟩ := hb
  obtain ⟨ux, hux⟩ := h3 x hx
  obtain ⟨uy, huy⟩ := h3 y hy
  rw [hux, huy, uuidParse_String, uuidParse_String] at hab
  simp only [Option.getD_some] at hab
  rw [hux, huy, hab]

/-- C8: starting from the empty store, after any sequence of `Register` and
`UpdateUser` calls, whatever their surroundings do and whether they succeed or
fail, no two rows have the same email and no two the same identifier (as text
and as UUID); and on any store, with the database answering, an `UpdateUser`
for an existing user that asks for an email held by a row with another
identifier returns `ErrEmailTaken` and leaves the store as it was. -/
theorem C8_uniqueness_invariant (s : UserService) :
    (∀ calls : List Call,
      ((s.run [] calls).map Row.email).Nodup ∧ ((s.run [] calls).map Row.id).Nodup ∧
      ((s.run [] calls).map (fun x => (userOfRow x).ID)).Nodup) ∧
    (∀ (db : DB) (id : UUID) (r : Row) (req : UpdateUserRequest) (now : Time),
      db.find? (fun x => decide (x.id = id.String)) = some r →
      req.Email ≠ "" →
      (∃ x ∈ db, x.id ≠ id.String ∧ x.email = req.Email) →
      s.UpdateUser ⟨none, now, none⟩ db id req = (.error .ErrEmailTaken, db)) := by
  constructor
  · intro calls
    have h := run_Inv s calls [] Inv_nil
    exact ⟨h.1.2, h.1.1, Inv_ids_nodup _ h⟩
  · intro db id r req now hfind hne hheld
    obtain ⟨hget, hgid⟩ := GetByID_some db id r hfind
    have hrid : r.id = id.String := by
      have := List.find?_some hfind
      simpa using this
    have hrmem : r ∈ db := List.mem_of_find?_eq_some hfind
    have hu : userOfRow r =
        ⟨id, r.name, r.email, r.password_hash, timeParse r.created_at,
          timeParse r.updated_at⟩ := by
      have := hgid
      simp only [userOfRow] at this ⊢
      rw [this]
    have hrun : ∀ nm : String, UserRepository.Update none db
        ⟨id, nm, req.Email, r.password_hash, timeParse r.created_at, now⟩
          = (some .ErrEmailTaken, db) :=
      fun nm => Update_conflict db
        ⟨id, nm, req.Email, r.password_hash, timeParse r.created_at, now⟩
        ⟨r, hrmem, hrid⟩ hheld
    by_cases hn : req.Name = ""
    · simp only [UserService.UpdateUser, hget, hu, hn, hne, ne_eq, not_false_eq_true,
        not_true_eq_false, if_true, if_false, hrun]
    · simp only [UserService.UpdateUser, hget, hu, hn, hne, ne_eq, not_false_eq_true,
        if_true, hrun]

/-- Witness for C8: the emails stay distinct along `exCalls`, and on the store that
holds Alice and Bob the request of Bob for the email of Alice is refused. -/
theorem C8_uniqueness_invariant_witness :
    ((exService.run [] exCalls).map Row.email).Nodup ∧
    exService.UpdateUser ⟨none, 1700000020000000000, none⟩ exStore2 exBob.ID
        ⟨"", "alice@example.com"⟩ = (.error .ErrEmailTaken, exStore2) :=
  ⟨((C8_uniqueness_invariant exService).1 exCalls).1,
   (C8_uniqueness_invariant exService).2 exStore2 exBob.ID (rowOfUser exBob)
     ⟨"", "alice@example.com"⟩ 1700000020000000000 (by decide) (by decide)
     ⟨rowOfUser exAlice, by decide, by decide, by decide⟩⟩

/-! ## C9 -/

theorem timeParse_Format (t : Time) :
    timeParse (Time.Format t) = t - t % nanosPerSecond := by
  show t / nanosPerSecond * nanosPerSecond = t - t % nanosPerSecond
  have h := Int.emod_add_ediv t nanosPerSecond
  linarith

theorem Update_none_ok (db db2 : DB) (u : User)
    (h : UserRepository.Update none db u = (none, db2)) :
    db2 = db.map (fun x =>
      if x.id = u.ID.String then
        { x with name := u.Name, email := u.Email, updated_at := Time.Format u.UpdatedAt }
      else x) := by
  unfold UserRepository.Update execUpdate at h
  simp only [] at h
  by_cases hc : (db.any (fun x => decide (x.id = u.ID.String)) = true ∧
      db.any (fun x => decide (x.id ≠ u.ID.String ∧ x.email = u.Email)) = true)
  · simp only [hc, and_self, if_true] at h
    split at h <;> simp at h
  · simp only [hc, if_false] at h
    split at h
    · simp at h
    · simp only [Prod.mk.injEq, true_and] at h
      exact h.symm

theorem GetByID_ok_find (fault : Option String) (db : DB) (id : UUID) (u : User)
    (h : UserRepository.GetByID fault db id = .ok u) :
    ∃ r, db.find? (fun x => decide (x.id = id.String)) = some r ∧ u = userOfRow r := by
  unfold UserRepository.GetByID queryRow scanOne at h
  cases fault with
  | some msg =>
    simp only [rowScan] at h
    split at h <;> simp at h
  | none =>
    cases hf : db.find? (fun x => decide (x.id = id.String)) with
    | none =>
      simp only [hf, rowScan] at h
      split at h <;> simp at h
    | some r =>
      simp only [hf, rowScan, Except.ok.injEq] at h
      exact ⟨r, rfl, h.symm⟩

/-- C9, counterexample: the time 1700000000.5 s is written and read back as
1700000000 s; `Register` at that time returns it as created timestamp, and
`GetByID` on the store it leaves returns 1700000000 s. -/
theorem C9_counterexample :
    timeParse (Time.Format (1700000000500000000 : Time)) = 1700000000000000000 ∧
    (exService.Register exRegisterEnv [] exRegisterRequest).1.toOption.map
        (fun resp => resp.User.CreatedAt) = some 1700000000500000000 ∧
    (exService.GetByID none (exService.Register exRegisterEnv [] exRegisterRequest).2
        exRegisterEnv.newID).toOption.map (fun u => u.CreatedAt)
      = some 1700000000000000000 := by
  refine ⟨by decide, by decide, by decide⟩

/-- C9, amended: parsing the text written for a time `t` yields `t` cut down to
its whole second, which is `t` exactly when `t` has no sub-second part.  After a
successful `Register`, `GetByID` returns the user that `Register` returned with
the created and updated timestamps cut down to whole seconds; after a successful
`UpdateUser`, `GetByID` returns the user that `UpdateUser` returned with the
updated timestamp cut down to its whole second (the created timestamp is the
same). -/
theorem C9_timestamps_whole_seconds (s : UserService) :
    (∀ t : Time, timeParse (Time.Format t) = t - t % nanosPerSecond ∧
      (timeParse (Time.Format t) = t ↔ t % nanosPerSecond = 0)) ∧
    (∀ (env : RegisterEnv) (db db2 : DB) (req : RegisterRequest) (resp : AuthResponse),
      s.Register env db req = (.ok resp, db2) →
      s.GetByID none db2 resp.User.ID
        = .ok { resp.User with
            CreatedAt := resp.User.CreatedAt - resp.User.CreatedAt % nanosPerSecond
            UpdatedAt := resp.User.UpdatedAt - resp.User.UpdatedAt % nanosPerSecond }) ∧
    (∀ (env : UpdateEnv) (db db2 : DB) (id : UUID) (req : UpdateUserRequest) (u : User),
      s.UpdateUser env db id req = (.ok u, db2) →
      s.GetByID none db2 id
        = .ok { u with UpdatedAt := u.UpdatedAt - u.UpdatedAt % nanosPerSecond }) := by
  refine ⟨?_, ?_, ?_⟩
  · intro t
    refine ⟨timeParse_Format t, ?_⟩
    rw [timeParse_Format]
    constructor <;> intro h <;> linarith
  · intro env db db2 req resp h
    obtain ⟨hdb, -, hfresh, -⟩ := Register_ok_inv s env db db2 req resp h
    have hfind : db2.find? (fun x => decide (x.id = resp.User.ID.String))
        = some (rowOfUser resp.User) := by
      rw [hdb, List.find?_append]
      have hnone : db.find? (fun x => decide (x.id = resp.User.ID.String)) = none := by
        simpa [List.find?_eq_none] using hfresh
      rw [hnone]
      simp [List.find?, rowOfUser]
    obtain ⟨hget, hgid⟩ := GetByID_some db2 resp.User.ID _ hfind
    unfold UserService.GetByID
    rw [hget]
    congr 1
    have h1 := timeParse_Format resp.User.CreatedAt
    have h2 := timeParse_Format resp.User.UpdatedAt
    simp only [userOfRow, rowOfUser] at hgid ⊢
    rw [hgid, h1, h2]
  · intro env db db2 id req u h
    have hfault : env.updateFault = none := by
      cases hf : env.updateFault with
      | none => rfl
      | some msg =>
        exfalso
        unfold UserService.UpdateUser at h
        cases hg : UserRepository.GetByID env.getFault db id with
        | error e => simp [hg] at h
        | ok u0 =>
          have hup : ∀ v : User, (UserRepository.Update (some msg) db v).1 ≠ none := by
            intro v
            simp only [UserRepository.Update, execUpdate]
            split <;> simp
          simp only [hg, hf] at h
          split at h
          · simp at h
          · rename_i heq
            exact hup _ (congrArg Prod.fst heq)
    unfold UserService.UpdateUser at h
    cases hg : UserRepository.GetByID env.getFault db id with
    | error e => simp [hg] at h
    | ok u0 =>
      obtain ⟨r, hfind, hu0⟩ := GetByID_ok_find env.getFault db id u0 hg
      obtain ⟨-, hgid⟩ := GetByID_some db id r hfind
      simp only [hg, hfault] at h
      generalize hu : ({ (if req.Email ≠ "" then
          { (if req.Name ≠ "" then { u0 with Name := req.Name } else u0) with
            Email := req.Email }
        else (if req.Name ≠ "" then { u0 with Name := req.Name } else u0)) with
        UpdatedAt := env.now } : User) = u1 at h
      have hid1 : u1.ID = id := by
        rw [← hu, ← hgid, ← hu0]
        split <;> split <;> rfl
      have hhash : u1.PasswordHash = r.password_hash ∧ u1.CreatedAt = timeParse r.created_at := by
        rw [← hu, hu0]
        split <;> split <;> exact ⟨rfl, rfl⟩
      cases hupd : UserRepository.Update none db u1 with
      | mk e d =>
        rw [hupd] at h
        cases e with
        | some e => simp at h
        | none =>
          simp only [Prod.mk.injEq, Except.ok.injEq] at h
          obtain ⟨hu1, hd⟩ := h
          subst hu1 hd
          have hmap := Update_none_ok db d u1 hupd
          have hback := find_map_update db id.String
            (fun x => { x with name := u1.Name, email := u1.Email,
                               updated_at := Time.Format u1.UpdatedAt })
            (fun _ => rfl)
          rw [hfind, ← hid1, ← hmap] at hback
          rw [hid1] at hback
          obtain ⟨hget2, hgid2⟩ := GetByID_some d id _ hback
          unfold UserService.GetByID
          rw [hget2]
          congr 1
          have h2 := timeParse_Format u1.UpdatedAt
          simp only [userOfRow] at hgid2 ⊢
          rw [hgid2, h2, ← hid1, ← hhash.1, ← hhash.2]

/-- Witness for C9: the registration of the counterexample, read back. -/
theorem C9_timestamps_whole_seconds_witness :
    exService.GetByID none (exService.Register exRegisterEnv [] exRegisterRequest).2
        exRegisterEnv.newID
      = .ok { ID := exRegisterEnv.newID, Name := "Alice", Email := "alice@example.com",
              PasswordHash := .bcrypt "salt" (bcryptKey "secret123"),
              CreatedAt := 1700000000000000000, UpdatedAt := 1700000000000000000 } := by
  exact (C9_timestamps_whole_seconds exService).2.1 exRegisterEnv []
    (exService.Register exRegisterEnv [] exRegisterRequest).2 exRegisterRequest
    ⟨.compact exToken,
      ⟨exRegisterEnv.newID, "Alice", "alice@example.com", .bcrypt "salt" (bcryptKey "secret123"),
        1700000000500000000, 1700000000500000000⟩⟩ rfl

/-! ## C10 -/

/-- C10, counterexample: at the same time two requests carry a bearer token that
fails verification, one expired, one with a subject that is no UUID; both are
aborted with status 401, and the bodies differ: the second has no `message`. -/
theorem C10_counterexample :
    JWTAuth "test-secret" 1700086400200000000 (.bearer exToken)
      = .abort 401 [("error", "unauthorized"), ("message", "invalid or expired token")] ∧
    JWTAuth "test-secret" 1700086400200000000 (.bearer exBadSubToken)
      = .abort 401 [("error", "unauthorized")] ∧
    JWTAuth "test-secret" 1700086400200000000 (.bearer exToken)
      ≠ JWTAuth "test-secret" 1700086400200000000 (.bearer exBadSubToken) := by
  decide

theorem JWTAuth_bearer (secret : String) (now : Time) (header : HeaderValue)
    (hb : header.hasBearer = true) :
    JWTAuth secret now header
      = match jwtParse header.trimBearer (JWTAuth.keyFunc secret) now with
        | .error _ =>
          .abort 401 [("error", "unauthorized"), ("message", "invalid or expired token")]
        | .ok claims =>
          match uuidParse (claimString claims "sub") with
          | none => .abort 401 [("error", "unauthorized")]
          | some userID => .next userID := by
  simp only [JWTAuth, hb, not_true_eq_false, if_false]

theorem jwtParse_bearer (secret : String) (now : Time) (t : JWT) :
    jwtParse (.compact t) (JWTAuth.keyFunc secret) now
      = if getSigningMethod t.alg = some true then
          if t.sig = .hmac t.alg secret t.claims then
            match validateClaims t.claims now with
            | .error e => .error e
            | .ok _ => .ok t.claims
          else .error .signatureInvalid
        else .error .unverifiable := by
  unfold jwtParse
  simp only []
  cases hm : getSigningMethod t.alg with
  | none => simp
  | some b =>
    cases b with
    | false => simp [JWTAuth.keyFunc]
    | true => simp [JWTAuth.keyFunc]

/-- C10, amended: a request carries a bearer token.  When the library rejects the
token, `JWTAuth` aborts with status 401 and the body `error: unauthorized,
message: invalid or expired token`; that is so for a malformed token, for a
header algorithm that is not an HMAC method, for a signature not made with the
secret, and for a token whose `exp` second has come.  When the library accepts
the token and its subject is no UUID, `JWTAuth` aborts with status 401 and the
body `error: unauthorized` alone.  The handler runs only when the library accepts
the token and the subject is a UUID; in every other case the request is aborted
with status 401 and a body whose `error` is `unauthorized`. -/
theorem C10_gate_rejections (secret : String) (now : Time) (header : HeaderValue)
    (hb : header.hasBearer = true) :
    (∀ e, jwtParse header.trimBearer (JWTAuth.keyFunc secret) now = .error e →
      JWTAuth secret now header
        = .abort 401 [("error", "unauthorized"), ("message", "invalid or expired token")]) ∧
    (∀ claims, jwtParse header.trimBearer (JWTAuth.keyFunc secret) now = .ok claims →
      uuidParse (claimString claims "sub") = none →
      JWTAuth secret now header = .abort 401 [("error", "unauthorized")]) ∧
    (∀ userID, JWTAuth secret now header = .next userID →
      ∃ claims, jwtParse header.trimBearer (JWTAuth.keyFunc secret) now = .ok claims ∧
        uuidParse (claimString claims "sub") = some userID) ∧
    ((∀ userID, JWTAuth secret now header ≠ .next userID) →
      ∃ body, JWTAuth secret now header = .abort 401 body ∧
        body.lookup "error" = some "unauthorized") ∧
    (∀ raw, header = .text raw →
      JWTAuth secret now header
        = .abort 401 [("error", "unauthorized"), ("message", "invalid or expired token")]) ∧
    (∀ t, header = .bearer t →
      (getSigningMethod t.alg ≠ some true ∨ t.sig ≠ .hmac t.alg secret t.claims ∨
        ∃ e, t.claims.lookup "exp" = some (.num e) ∧ e ≠ 0 ∧ e * nanosPerSecond ≤ now) →
      JWTAuth secret now header
        = .abort 401 [("error", "unauthorized"), ("message", "invalid or expired token")]) := by
  have hJ := JWTAuth_bearer secret now header hb
  have herr : ∀ e, jwtParse header.trimBearer (JWTAuth.keyFunc secret) now = .error e →
      JWTAuth secret now header
        = .abort 401 [("error", "unauthorized"), ("message", "invalid or expired token")] := by
    intro e he
    rw [hJ, he]
  refine ⟨herr, ?_, ?_, ?_, ?_, ?_⟩
  · intro claims hc hu
    rw [hJ, hc]
    simp only [hu]
  · intro userID hn
    rw [hJ] at hn
    cases hp : jwtParse header.trimBearer (JWTAuth.keyFunc secret) now with
    | error e => simp [hp] at hn
    | ok claims =>
      simp only [hp] at hn
      cases hu : uuidParse (claimString claims "sub") with
      | none => simp [hu] at hn
      | some v =>
        simp only [hu, GateResult.next.injEq] at hn
        exact ⟨claims, rfl, by rw [hu, hn]⟩
  · intro hno
    cases hp : jwtParse header.trimBearer (JWTAuth.keyFunc secret) now with
    | error e => exact ⟨_, herr e hp, by decide⟩
    | ok claims =>
      cases hu : uuidParse (claimString claims "sub") with
      | none =>
        refine ⟨[("error", "unauthorized")], ?_, by decide⟩
        rw [hJ, hp]
        simp only [hu]
      | some v =>
        exfalso
        apply hno v
        rw [hJ, hp]
        simp only [hu]
  · intro raw hraw
    apply herr .malformed
    rw [hraw]
    rfl
  · intro t ht hcause
    subst ht
    have hp := jwtParse_bearer secret now t
    simp only [HeaderValue.trimBearer] at herr
    rcases hcause with h1 | h2 | ⟨e, h3, h4, h5⟩
    · apply herr .unverifiable
      rw [hp]
      simp only [h1, if_false]
    · by_cases h1 : getSigningMethod t.alg = some true
      · apply herr .signatureInvalid
        rw [hp]
        simp only [h1, h2, if_true, if_false]
      · apply herr .unverifiable
        rw [hp]
        simp only [h1, if_false]
    · by_cases h1 : getSigningMethod t.alg = some true
      · by_cases h2 : t.sig = .hmac t.alg secret t.claims
        · apply herr .expired
          rw [hp]
          have hv : validateClaims t.claims now = .error .expired := by
            have hnlt : ¬ now < e * nanosPerSecond := not_lt.mpr h5
            simp [validateClaims, parseNumericDate, h3, h4, hnlt]
          simp only [h1, h2, if_true, hv]
        · apply herr .signatureInvalid
          rw [hp]
          simp only [h1, h2, if_true, if_false]
      · apply herr .unverifiable
        rw [hp]
        simp only [h1, if_false]

/-- Witness for C10: the expired token and the token with a subject that is no
UUID, both presented as bearer tokens. -/
theorem C10_gate_rejections_witness :
    JWTAuth "test-secret" 1700086400200000000 (.bearer exToken)
      = .abort 401 [("error", "unauthorized"), ("message", "invalid or expired token")] ∧
    JWTAuth "test-secret" 1700086400200000000 (.bearer exBadSubToken)
      = .abort 401 [("error", "unauthorized")] :=
  ⟨(C10_gate_rejections "test-secret" 1700086400200000000 (.bearer exToken) rfl).2.2.2.2.2
      exToken rfl (Or.inr (Or.inr ⟨1700086400, by decide, by decide, by decide⟩)),
   (C10_gate_rejections "test-secret" 1700086400200000000 (.bearer exBadSubToken) rfl).2.1
      exBadSubToken.claims rfl (by decide)⟩

/-! ## C11 -/

theorem Is_cause (err t : Error) (ht : ∀ ctx e, t ≠ .wrap ctx e) :
    err.Is t = decide (err.cause = t) := by
  induction err with
  | wrap ctx e ih =>
    have hne : Error.wrap ctx e ≠ t := fun h => ht ctx e h.symm
    rw [Error.Is]
    simp only [hne, if_false, Error.cause]
    exact ih
  | ErrNotFound => cases t <;> simp [Error.Is, Error.cause]
  | ErrEmailTaken => cases t <;> simp [Error.Is, Error.cause]
  | ErrInvalidCredentials => cases t <;> simp [Error.Is, Error.cause]
  | ErrNoRows => cases t <;> simp [Error.Is, Error.cause]
  | external msg => cases t <;> simp [Error.Is, Error.cause]

theorem cause_not_wrap (err : Error) : ∀ ctx e, err.cause ≠ .wrap ctx e := by
  induction err with
  | wrap c e ih => simpa [Error.cause] using ih
  | ErrNotFound => intro ctx e; simp [Error.cause]
  | ErrEmailTaken => intro ctx e; simp [Error.cause]
  | ErrInvalidCredentials => intro ctx e; simp [Error.cause]
  | ErrNoRows => intro ctx e; simp [Error.cause]
  | external msg => intro ctx e; simp [Error.cause]

/-- The response of `fail` by the class of the error. -/
theorem fail_by_class (err : Error) :
    handler.fail err =
      match classOf err with
      | .notFound =>
        { status := 404, body := [("error", "not_found"), ("message", "user not found")] }
      | .emailTaken =>
        { status := 409, body := [("error", "conflict"), ("message", "email already in use")] }
      | .invalidCredentials =>
        { status := 401
          body := [("error", "invalid_credentials"),
                   ("message", "email or password is incorrect")] }
      | .other => { status := 500, body := [("error", "internal_error")] } := by
  have h1 := Is_cause err .ErrNotFound (by intro c e; simp)
  have h2 := Is_cause err .ErrEmailTaken (by intro c e; simp)
  have h3 := Is_cause err .ErrInvalidCredentials (by intro c e; simp)
  have hw := cause_not_wrap err
  unfold handler.fail classOf
  rw [h1, h2, h3]
  cases hc : err.cause with
  | wrap c e => exact absurd hc (hw c e)
  | ErrNotFound => simp
  | ErrEmailTaken => simp
  | ErrInvalidCredentials => simp
  | ErrNoRows => simp
  | external msg => simp

/-- C11, counterexample: a driver error wrapped by `Create` is answered with
status 500 and a body that has the identifier `internal_error` and no message;
and the message of the response to `ErrNotFound` is the text of `ErrNotFound`
itself. -/
theorem C11_counterexample :
    handler.fail exStoreError = { status := 500, body := [("error", "internal_error")] } ∧
    (handler.fail exStoreError).body.lookup "message" = none ∧
    (handler.fail .ErrNotFound).body.lookup "message" = some Error.ErrNotFound.Error := by
  decide

/-- C11, amended: the response of `fail` is determined by the class of the error
alone: 404 `not_found` for `ErrNotFound`, 409 `conflict` for `ErrEmailTaken`, 401
`invalid_credentials` for `ErrInvalidCredentials`, 500 `internal_error` for
anything else, a wrapped error answered like the error it wraps, and two errors
of one class answered alike whatever their texts are.  The body carries the
identifier of the class; it carries a non-empty message, one fixed text per
class, for the three classes of sentinels, and no message for the class of the
other errors. -/
theorem C11_fail_by_class (err : Error) :
    (handler.fail err).status = (classStatus (classOf err)).1 ∧
    (handler.fail err).body.lookup "error" = some (classStatus (classOf err)).2 ∧
    (∀ ctx, handler.fail (.wrap ctx err) = handler.fail err) ∧
    (∀ err2, classOf err2 = classOf err → handler.fail err2 = handler.fail err) ∧
    (classOf err ≠ .other →
      ∃ m, (handler.fail err).body.lookup "message" = some m ∧ m ≠ "") ∧
    (classOf err = .other →
      handler.fail err = { status := 500, body := [("error", "internal_error")] } ∧
      (handler.fail err).body.lookup "message" = none) := by
  have h := fail_by_class err
  refine ⟨?_, ?_, ?_, ?_, ?_, ?_⟩
  · rw [h]
    cases classOf err <;> rfl
  · rw [h]
    cases classOf err <;> rfl
  · intro ctx
    rw [fail_by_class (.wrap ctx err), h]
    rfl
  · intro err2 h2
    rw [fail_by_class err2, h, h2]
  · intro hne
    rw [h]
    cases hc : classOf err with
    | notFound => exact ⟨_, rfl, by decide⟩
    | emailTaken => exact ⟨_, rfl, by decide⟩
    | invalidCredentials => exact ⟨_, rfl, by decide⟩
    | other => exact absurd hc hne
  · intro hc
    rw [h, hc]
    exact ⟨rfl, rfl⟩

/-- Witness for C11: a wrapped `ErrEmailTaken` is answered with 409 and the fixed
message, the wrapped driver error with 500 and no message. -/
theorem C11_fail_by_class_witness :
    (handler.fail (.wrap "service.Register" .ErrEmailTaken)).status = 409 ∧
    (∃ m, (handler.fail (.wrap "service.Register" .ErrEmailTaken)).body.lookup "message"
        = some m ∧ m ≠ "") ∧
    handler.fail exStoreError = { status := 500, body := [("error", "internal_error")] } ∧
    (handler.fail exStoreError).body.lookup "message" = none :=
  ⟨(C11_fail_by_class (.wrap "service.Register" .ErrEmailTaken)).1,
   (C11_fail_by_class (.wrap "service.Register" .ErrEmailTaken)).2.2.2.2.1 (by decide),
   ((C11_fail_by_class exStoreError).2.2.2.2.2 (by decide)).1,
   ((C11_fail_by_class exStoreError).2.2.2.2.2 (by decide)).2⟩

/-! ## C12 -/

/-- A row that carries a given identifier is found under its canonical text: when
no row has the identifier, no row has its text. -/
theorem no_row_text_of_no_row_ID (db : DB) (id : UUID)
    (h : ∀ x ∈ db, (userOfRow x).ID ≠ id) : ∀ x ∈ db, x.id ≠ id.String := by
  intro x hx e
  apply h x hx
  simp [userOfRow, e, uuidParse_String]

/-- C12: when no row of the store carries the identifier, then, the database
answering, `GetByID` returns `ErrNotFound` and no user, and `UpdateUser` with any
request at any time returns `ErrNotFound`, no user, and the store as it was;
`GetByID` of the service is the one of the repository, which only reads. -/
theorem C12_not_found (s : UserService) (db : DB) (id : UUID) (req : UpdateUserRequest)
    (now : Time) (updateFault : Option String)
    (h : ∀ x ∈ db, x.id ≠ id.String) :
    s.GetByID none db id = .error .ErrNotFound ∧
    UserRepository.GetByID none db id = .error .ErrNotFound ∧
    s.UpdateUser ⟨none, now, updateFault⟩ db id req = (.error .ErrNotFound, db) := by
  have hg := GetByID_none db id h
  refine ⟨hg, hg, ?_⟩
  simp only [UserService.UpdateUser, hg]

/-- Witness for C12: an unused identifier on the store that holds Alice and Bob. -/
theorem C12_not_found_witness :
    exService.GetByID none exStore2 exUnusedID = .error .ErrNotFound ∧
    exService.UpdateUser ⟨none, 1700000030000000000, none⟩ exStore2 exUnusedID ⟨"Ghost", ""⟩
      = (.error .ErrNotFound, exStore2) :=
  ⟨(C12_not_found exService exStore2 exUnusedID ⟨"Ghost", ""⟩ 1700000030000000000 none
      (by decide)).1,
   (C12_not_found exService exStore2 exUnusedID ⟨"Ghost", ""⟩ 1700000030000000000 none
      (by decide)).2.2⟩

end UserMgmt
